import Mathlib

/-!
# Tab-Saver: saved-tab list reconciliation

A shallow embedding of `background.js` (the storage helpers, the core helpers, the
tab event listeners and the message listener) together with theorems about it.

Conventions of the embedding.

* A JavaScript property that may be missing or `undefined` is an `Option`; `none` stands
  for "absent". `a ?? b` is `nullish a b`, `a === b` is equality of the options.
* Tab and window ids are integers; a tab index is a zero-based position, a natural number.
* Every handler is run to completion on the storage state it starts from: the embedding
  is sequential, one handler at a time.
* `JSON.stringify` is modelled by the JSON document it prints: one object per entry,
  listing the present keys in creation order.
* The browser is a record of the answers it gives to the queries the code makes.
* The handlers are followed on a stored array of entry objects while every awaited call
  resolves. For the message listener the failures are followed as well (`Raw.onMessage`):
  an awaited call that rejects, a property read on an array element that is `null`.
-/

namespace TabSaver

/-! ## Data model -/

/-- A live tab, as handed out by `browser.tabs.query`, `browser.tabs.get` and the
`onUpdated` listener. Every property may be missing. -/
structure Tab where
  id : Option Int
  windowId : Option Int
  url : Option String
  title : Option String
  favIconUrl : Option String
  index : Option Nat
deriving DecidableEq, Repr

/-- One element of the saved list, the object literal built in `addCurrentTab`. -/
structure SavedEntry where
  tabId : Option Int
  windowId : Option Int
  url : Option String
  title : Option String
  favIconUrl : Option String
  index : Option Nat
  savedAt : Nat
  autoRepointed : Bool
deriving DecidableEq, Repr

/-- The argument of `updateEntry`: the routing key `matchTabId` and, for every entry
property, whether the object names it (`some v`, where `v` itself may be `undefined`). -/
structure EntryPatch where
  matchTabId : Option Int
  tabId : Option (Option Int)
  windowId : Option (Option Int)
  url : Option (Option String)
  title : Option (Option String)
  favIconUrl : Option (Option String)
  index : Option (Option Nat)
  savedAt : Option Nat
  autoRepointed : Option Bool
deriving DecidableEq, Repr

/-- What is kept under the key `savedTabs`: an array of entries, or something that is
not an array (kept by its text). -/
inductive StoredValue where
  | array (list : List SavedEntry)
  | nonArray (text : String)
deriving DecidableEq, Repr

/-- The extension's `browser.storage.local` area: the value under `STORAGE_KEY`
(`none` when the key is absent) and the number of `storage.local.set` calls made so far. -/
structure Storage where
  savedTabs : Option StoredValue
  writes : Nat
deriving DecidableEq, Repr

/-- The answers of the browser to the calls made by the background script. -/
structure Browser where
  /-- First element of `tabs.query` for the active tab of the current window. -/
  activeTab : Option Tab
  /-- Result of `tabs.query` for a window id. -/
  tabsInWindow : Option Int → List Tab
  /-- Result of `tabs.get`; `none` when the promise rejects. -/
  getTab : Option Int → Option Tab
  /-- Whether `windows.update(windowId, focused)` resolves. -/
  windowsUpdate : Option Int → Bool
  /-- Whether `tabs.update(tabId, active)` resolves. -/
  tabsUpdate : Option Int → Bool
  /-- Value of `Date.now()`. -/
  now : Nat

/-- The `changeInfo` argument of `tabs.onUpdated`, reduced to the `in` tests made on it. -/
structure ChangeInfo where
  hasTitle : Bool
  hasFavIconUrl : Bool
  hasUrl : Bool
deriving DecidableEq, Repr

/-- The `removeInfo` argument of `tabs.onRemoved`. -/
structure RemoveInfo where
  windowId : Option Int
  isWindowClosing : Bool
deriving DecidableEq, Repr

/-- Messages received by the `runtime.onMessage` listener, by their `type`. -/
inductive Msg where
  | addCurrentTab
  | getSaved
  | getSavedHydrated
  | focusTab (tabId windowId : Option Int)
  | removeSaved (tabId : Option Int)
  | clearRepointedFlag (tabId : Option Int)
  | other
deriving DecidableEq, Repr

/-- Values the message listener resolves to. -/
inductive Response where
  | ok
  | saved (list : List SavedEntry)
  | undefined
deriving DecidableEq, Repr

/-- Calls made on the browser by `focusSavedTab` that resolved. -/
inductive FocusAction where
  | window (windowId : Option Int)
  | tab (tabId : Option Int)
deriving DecidableEq, Repr

/-! ## JavaScript helpers -/

/-- The operator `a ?? b`. -/
def nullish {α : Type} (a b : Option α) : Option α :=
  match a with
  | some v => some v
  | none => b

/-- `Array.prototype.findIndex`; `none` stands for `-1`. -/
def findIndex {α : Type} (p : α → Bool) : List α → Option Nat
  | [] => none
  | x :: xs => if p x then some 0 else (findIndex p xs).map (· + 1)

/-- A JSON scalar. -/
inductive JsonScalar where
  | num (n : Int)
  | str (s : String)
  | bool (b : Bool)
deriving DecidableEq, Repr

/-- A property of a JSON object; an `undefined` value prints nothing. -/
def optField (k : String) : Option JsonScalar → List (String × JsonScalar)
  | none => []
  | some v => [(k, v)]

/-- The JSON object printed for one entry. -/
def entryToJson (e : SavedEntry) : List (String × JsonScalar) :=
  optField "tabId" (e.tabId.map JsonScalar.num) ++
  (optField "windowId" (e.windowId.map JsonScalar.num) ++
  (optField "url" (e.url.map JsonScalar.str) ++
  (optField "title" (e.title.map JsonScalar.str) ++
  (optField "favIconUrl" (e.favIconUrl.map JsonScalar.str) ++
  (optField "index" (e.index.map (fun n => JsonScalar.num (Int.ofNat n))) ++
  [("savedAt", JsonScalar.num (Int.ofNat e.savedAt)),
   ("autoRepointed", JsonScalar.bool e.autoRepointed)])))))

/-- The document printed by `JSON.stringify` for a list of entries. -/
def stringify (list : List SavedEntry) : List (List (String × JsonScalar)) :=
  list.map entryToJson

/-! ## Storage helpers -/

/-- The storage key. -/
def STORAGE_KEY : String := "savedTabs"

/-- `getSaved`: the stored array, or the empty list. -/
def getSaved (st : Storage) : List SavedEntry :=
  match st.savedTabs with
  | some (StoredValue.array list) => list
  | _ => []

/-- `setSaved`: unconditional write. -/
def setSaved (list : List SavedEntry) (st : Storage) : Storage :=
  { savedTabs := some (StoredValue.array list), writes := st.writes + 1 }

/-- `setSavedIfChanged`: write only when the serialization differs. -/
def setSavedIfChanged (next : List SavedEntry) (st : Storage) : Storage :=
  let prev := getSaved st
  let same := stringify prev == stringify next
  if !same then
    { savedTabs := some (StoredValue.array next), writes := st.writes + 1 }
  else st

/-! ## Core helpers -/

/-- The key `partial.matchTabId ?? partial.tabId`. -/
def matchKey (p : EntryPatch) : Option Int :=
  nullish p.matchTabId p.tabId.join

/-- The object spread of an entry followed by the patch without `matchTabId`. -/
def mergeEntry (old : SavedEntry) (p : EntryPatch) : SavedEntry :=
  { tabId := p.tabId.getD old.tabId
    windowId := p.windowId.getD old.windowId
    url := p.url.getD old.url
    title := p.title.getD old.title
    favIconUrl := p.favIconUrl.getD old.favIconUrl
    index := p.index.getD old.index
    savedAt := p.savedAt.getD old.savedAt
    autoRepointed := p.autoRepointed.getD old.autoRepointed }

/-- `updateEntry`. -/
def updateEntry (p : EntryPatch) (st : Storage) : Storage :=
  let list := getSaved st
  match findIndex (fun x => x.tabId == matchKey p) list with
  | some idx =>
    match list[idx]? with
    | some old => setSavedIfChanged (list.set idx (mergeEntry old p)) st
    | none => st
  | none => st

/-- `removeByTabId`. -/
def removeByTabId (tabId : Option Int) (st : Storage) : Storage :=
  let list := getSaved st
  let filtered := list.filter (fun x => x.tabId != tabId)
  if filtered.length != list.length then setSavedIfChanged filtered st else st

/-- The entry literal of `addCurrentTab`. -/
def newEntry (activeTab : Tab) (now : Nat) : SavedEntry :=
  { tabId := activeTab.id
    windowId := activeTab.windowId
    url := activeTab.url
    title := activeTab.title
    favIconUrl := activeTab.favIconUrl
    index := nullish activeTab.index (some 0)
    savedAt := now
    autoRepointed := false }

/-- `addCurrentTab`. -/
def addCurrentTab (b : Browser) (st : Storage) : Storage :=
  match b.activeTab with
  | none => st
  | some activeTab =>
    let list := getSaved st
    if list.any (fun x => x.tabId == activeTab.id && x.windowId == activeTab.windowId) then st
    else setSavedIfChanged (newEntry activeTab b.now :: list) st

/-- `focusSavedTab`: the calls that resolved; a rejection ends the `try` block. -/
def focusSavedTab (b : Browser) (tabId windowId : Option Int) : List FocusAction :=
  if b.windowsUpdate windowId then
    if b.tabsUpdate tabId then [FocusAction.window windowId, FocusAction.tab tabId]
    else [FocusAction.window windowId]
  else []

/-! ## Tab events -/

/-- The `tabs.onUpdated` listener. -/
def onUpdated (tabId : Int) (changeInfo : ChangeInfo) (tab : Tab) (st : Storage) : Storage :=
  if !changeInfo.hasTitle && !changeInfo.hasFavIconUrl && !changeInfo.hasUrl then st
  else updateEntry
    { matchTabId := none, tabId := some (some tabId), windowId := none, url := some tab.url,
      title := some tab.title, favIconUrl := some tab.favIconUrl, index := none,
      savedAt := none, autoRepointed := none } st

/-- The `tabs.onMoved` listener. -/
def onMoved (tabId : Int) (toIndex : Nat) (st : Storage) : Storage :=
  updateEntry
    { matchTabId := none, tabId := some (some tabId), windowId := none, url := none,
      title := none, favIconUrl := none, index := some (some toIndex),
      savedAt := none, autoRepointed := none } st

/-- The first loop of `onRemoved`, started at position `i`: positions of the entries
pointing at the closed tab. -/
def affectedFrom (closedTabId : Int) (i : Nat) : List SavedEntry → List Nat
  | [] => []
  | e :: es =>
    if e.tabId == some closedTabId then i :: affectedFrom closedTabId (i + 1) es
    else affectedFrom closedTabId (i + 1) es

/-- The array `affectedIdxs`. -/
def affectedIdxs (closedTabId : Int) (list : List SavedEntry) : List Nat :=
  affectedFrom closedTabId 0 list

/-- The comparator `(a, b) => a.index - b.index`; a `NaN` result counts as `0`. -/
def compareIndex (a b : Tab) : Int :=
  match a.index, b.index with
  | some x, some y => (x : Int) - (y : Int)
  | _, _ => 0

/-- `tabs.sort(...)`: a stable sort by `compareIndex`. -/
def sortTabs (tabs : List Tab) : List Tab :=
  tabs.insertionSort (fun a b => compareIndex a b ≤ 0)

/-- The choice of `replacement` for an entry with stored index `oldIndex`. -/
def findReplacement (tabs : List Tab) (oldIndex : Nat) : Option Tab :=
  match tabs.find? (fun t => t.index == some oldIndex) with
  | some t => some t
  | none =>
    if tabs.length != 0 then tabs[min oldIndex (tabs.length - 1)]? else none

/-- The entry literal assigned to `list[idx]` in `onRemoved`. -/
def repoint (entry : SavedEntry) (live : Tab) : SavedEntry :=
  { entry with
    tabId := live.id
    windowId := live.windowId
    url := live.url
    title := live.title
    favIconUrl := live.favIconUrl
    index := live.index
    autoRepointed := true }

/-- The tab `live`: the re-fetched tab, or `replacement` when `tabs.get` rejects. -/
def liveOf (b : Browser) (replacement : Tab) : Tab :=
  match b.getTab replacement.id with
  | some t => t
  | none => replacement

/-- One iteration of the second loop of `onRemoved` on the pair `(list, toRemove)`. -/
def reconcileStep (b : Browser) (tabs : List Tab) (acc : List SavedEntry × List Nat)
    (idx : Nat) : List SavedEntry × List Nat :=
  match acc.1[idx]? with
  | none => acc
  | some entry =>
    let oldIndex := (nullish entry.index (some 0)).getD 0
    match findReplacement tabs oldIndex with
    | none => (acc.1, acc.2 ++ [idx])
    | some replacement => (acc.1.set idx (repoint entry (liveOf b replacement)), acc.2)

/-- `toRemove.sort((a, b) => b - a).forEach(i => list.splice(i, 1))`. -/
def spliceAll (toRemove : List Nat) (list : List SavedEntry) : List SavedEntry :=
  (toRemove.insertionSort (fun (a b : Nat) => (b : Int) - (a : Int) ≤ 0)).foldl
    (fun l i => l.eraseIdx i) list

/-- The list handed to `setSavedIfChanged` at the end of `onRemoved` when the window
stays open. -/
def reconcileList (b : Browser) (tabs : List Tab) (idxs : List Nat)
    (list : List SavedEntry) : List SavedEntry :=
  let acc := idxs.foldl (reconcileStep b tabs) (list, [])
  if acc.2.length != 0 then spliceAll acc.2 acc.1 else acc.1

/-- The `tabs.onRemoved` listener. -/
def onRemoved (b : Browser) (closedTabId : Int) (removeInfo : RemoveInfo)
    (st : Storage) : Storage :=
  let list := getSaved st
  match affectedIdxs closedTabId list with
  | [] => st
  | first :: rest =>
    if removeInfo.isWindowClosing then
      setSavedIfChanged (list.filter (fun e => e.tabId != some closedTabId)) st
    else
      let windowId := nullish removeInfo.windowId (list[first]?.bind (·.windowId))
      let tabs := sortTabs (b.tabsInWindow windowId)
      setSavedIfChanged (reconcileList b tabs (first :: rest) list) st

/-! ## Messaging -/

/-- The overlay computed for one entry by `GET_SAVED_HYDRATED`. -/
def hydrate (b : Browser) (it : SavedEntry) : SavedEntry :=
  match b.getTab it.tabId with
  | some t =>
    { it with
      title := nullish t.title it.title
      url := nullish t.url it.url
      favIconUrl := nullish t.favIconUrl it.favIconUrl
      index := nullish t.index it.index }
  | none => it

/-- The `runtime.onMessage` listener on a stored array of entry objects while every
awaited call resolves: the response and the storage afterwards. `FOCUS_TAB` runs
`focusSavedTab`, which swallows its failures and touches no storage. The listener with
its failures is `Raw.onMessage`, which agrees with this one on such runs. -/
def onMessage (b : Browser) (msg : Msg) (st : Storage) : Response × Storage :=
  match msg with
  | Msg.addCurrentTab => (Response.ok, addCurrentTab b st)
  | Msg.getSaved => (Response.saved (getSaved st), st)
  | Msg.getSavedHydrated => (Response.saved ((getSaved st).map (hydrate b)), st)
  | Msg.focusTab _ _ => (Response.ok, st)
  | Msg.removeSaved tabId => (Response.ok, removeByTabId tabId st)
  | Msg.clearRepointedFlag tabId =>
    (Response.ok, updateEntry
      { matchTabId := none, tabId := some tabId, windowId := none, url := none,
        title := none, favIconUrl := none, index := none,
        savedAt := none, autoRepointed := some false } st)
  | Msg.other => (Response.undefined, st)

/-! ## The message listener with its failures

The definitions above follow a handler on a stored array of entry objects while every
awaited call resolves. The listener registered on `runtime.onMessage` awaits
`addCurrentTab`, `removeByTabId` and `updateEntry` outside any `try`, so what they throw
reaches the sender as a rejection. The definitions below follow the same code with the
two sources of failure kept: an awaited browser call that rejects, and a property read
on an array element that is `null`. -/

/-- What ends a handler early. -/
inductive JsError where
  /-- A property read on `null`: the callbacks read `x.tabId`. -/
  | typeError
  /-- An awaited browser call rejected. -/
  | rejected
deriving DecidableEq, Repr

/-- How an awaited handler ends: with a value, or by throwing. -/
inductive Outcome (α : Type) where
  | resolved (value : α)
  | rejected (err : JsError)
deriving DecidableEq, Repr

/-- Which of the awaited browser calls made outside a `try` resolve. -/
structure ApiStatus where
  /-- The call `storage.local.get` of `getSaved`. -/
  storageGet : Bool
  /-- The call `storage.local.set` of `setSavedIfChanged`. -/
  storageSet : Bool
  /-- The call `tabs.query` of `addCurrentTab`. -/
  tabsQuery : Bool
deriving DecidableEq, Repr

/-- A stored value whose array elements are entry objects or `null` (`none`). -/
inductive RawStoredValue where
  | array (items : List (Option SavedEntry))
  | nonArray (text : String)
deriving DecidableEq, Repr

/-- The storage area, with any array under the key. -/
structure RawStorage where
  savedTabs : Option RawStoredValue
  writes : Nat
deriving DecidableEq, Repr

/-- Values the listener resolves to, over arrays that may hold `null`. -/
inductive RawResponse where
  | ok
  | saved (list : List (Option SavedEntry))
  | undefined
deriving DecidableEq, Repr

/-- `getSaved`, with the rejection of `storage.local.get`. -/
def Raw.getSaved (api : ApiStatus) (st : RawStorage) :
    Outcome (List (Option SavedEntry)) :=
  if api.storageGet then
    match st.savedTabs with
    | some (RawStoredValue.array items) => Outcome.resolved items
    | _ => Outcome.resolved []
  else Outcome.rejected JsError.rejected

/-- `JSON.stringify` of an array that may hold `null`. -/
def Raw.stringify (list : List (Option SavedEntry)) :
    List (Option (List (String × JsonScalar))) :=
  list.map (fun x => x.map entryToJson)

/-- `setSavedIfChanged`, with the rejections of the two storage calls. -/
def Raw.setSavedIfChanged (api : ApiStatus) (next : List (Option SavedEntry))
    (st : RawStorage) : Outcome RawStorage :=
  match Raw.getSaved api st with
  | Outcome.rejected err => Outcome.rejected err
  | Outcome.resolved prev =>
    let same := Raw.stringify prev == Raw.stringify next
    if !same then
      if api.storageSet then
        Outcome.resolved { savedTabs := some (RawStoredValue.array next), writes := st.writes + 1 }
      else Outcome.rejected JsError.rejected
    else Outcome.resolved st

/-- `list.findIndex(x => x.tabId === key)`: reading `x.tabId` throws on `null`. -/
def Raw.findIndex (key : Option Int) : List (Option SavedEntry) → Outcome (Option Nat)
  | [] => Outcome.resolved none
  | none :: _ => Outcome.rejected JsError.typeError
  | some e :: xs =>
    if e.tabId == key then Outcome.resolved (some 0)
    else
      match Raw.findIndex key xs with
      | Outcome.rejected err => Outcome.rejected err
      | Outcome.resolved r => Outcome.resolved (r.map (· + 1))

/-- `updateEntry`, with its failures. -/
def Raw.updateEntry (api : ApiStatus) (p : EntryPatch) (st : RawStorage) :
    Outcome RawStorage :=
  match Raw.getSaved api st with
  | Outcome.rejected err => Outcome.rejected err
  | Outcome.resolved list =>
    match Raw.findIndex (matchKey p) list with
    | Outcome.rejected err => Outcome.rejected err
    | Outcome.resolved none => Outcome.resolved st
    | Outcome.resolved (some idx) =>
      match list[idx]? with
      | some (some old) =>
        Raw.setSavedIfChanged api (list.set idx (some (mergeEntry old p))) st
      | _ => Outcome.resolved st

/-- `list.filter(x => x.tabId !== tabId)`: reading `x.tabId` throws on `null`. -/
def Raw.filterOut (tabId : Option Int) :
    List (Option SavedEntry) → Outcome (List (Option SavedEntry))
  | [] => Outcome.resolved []
  | none :: _ => Outcome.rejected JsError.typeError
  | some e :: xs =>
    match Raw.filterOut tabId xs with
    | Outcome.rejected err => Outcome.rejected err
    | Outcome.resolved r => Outcome.resolved (if e.tabId != tabId then some e :: r else r)

/-- `removeByTabId`, with its failures. -/
def Raw.removeByTabId (api : ApiStatus) (tabId : Option Int) (st : RawStorage) :
    Outcome RawStorage :=
  match Raw.getSaved api st with
  | Outcome.rejected err => Outcome.rejected err
  | Outcome.resolved list =>
    match Raw.filterOut tabId list with
    | Outcome.rejected err => Outcome.rejected err
    | Outcome.resolved filtered =>
      if filtered.length != list.length then Raw.setSavedIfChanged api filtered st
      else Outcome.resolved st

/-- The test `list.some(...)` of `addCurrentTab`: reading `x.tabId` throws on `null`. -/
def Raw.anyMatch (activeTab : Tab) : List (Option SavedEntry) → Outcome Bool
  | [] => Outcome.resolved false
  | none :: _ => Outcome.rejected JsError.typeError
  | some e :: xs =>
    if e.tabId == activeTab.id && e.windowId == activeTab.windowId then Outcome.resolved true
    else Raw.anyMatch activeTab xs

/-- `addCurrentTab`, with its failures. -/
def Raw.addCurrentTab (api : ApiStatus) (b : Browser) (st : RawStorage) :
    Outcome RawStorage :=
  if api.tabsQuery then
    match b.activeTab with
    | none => Outcome.resolved st
    | some activeTab =>
      match Raw.getSaved api st with
      | Outcome.rejected err => Outcome.rejected err
      | Outcome.resolved list =>
        match Raw.anyMatch activeTab list with
        | Outcome.rejected err => Outcome.rejected err
        | Outcome.resolved true => Outcome.resolved st
        | Outcome.resolved false =>
          Raw.setSavedIfChanged api (some (newEntry activeTab b.now) :: list) st
  else Outcome.rejected JsError.rejected

/-- The callback of `GET_SAVED_HYDRATED`: on `null` the read of `it.tabId` throws inside
the `try`, and the `catch` returns `it`. -/
def Raw.hydrate (b : Browser) (it : Option SavedEntry) : Option SavedEntry :=
  match it with
  | none => none
  | some e => some (TabSaver.hydrate b e)

/-- The `runtime.onMessage` listener with its failures: the response and the storage
afterwards, or what the sender's promise is rejected with. A failure happens before any
write, so the storage is then as it was. -/
def Raw.onMessage (api : ApiStatus) (b : Browser) (msg : Msg) (st : RawStorage) :
    Outcome (RawResponse × RawStorage) :=
  match msg with
  | Msg.addCurrentTab =>
    match Raw.addCurrentTab api b st with
    | Outcome.rejected err => Outcome.rejected err
    | Outcome.resolved st2 => Outcome.resolved (RawResponse.ok, st2)
  | Msg.getSaved =>
    match Raw.getSaved api st with
    | Outcome.rejected err => Outcome.rejected err
    | Outcome.resolved list => Outcome.resolved (RawResponse.saved list, st)
  | Msg.getSavedHydrated =>
    match Raw.getSaved api st with
    | Outcome.rejected err => Outcome.rejected err
    | Outcome.resolved list => Outcome.resolved (RawResponse.saved (list.map (Raw.hydrate b)), st)
  | Msg.focusTab tabId windowId =>
    let _actions := focusSavedTab b tabId windowId
    Outcome.resolved (RawResponse.ok, st)
  | Msg.removeSaved tabId =>
    match Raw.removeByTabId api tabId st with
    | Outcome.rejected err => Outcome.rejected err
    | Outcome.resolved st2 => Outcome.resolved (RawResponse.ok, st2)
  | Msg.clearRepointedFlag tabId =>
    match Raw.updateEntry api
        { matchTabId := none, tabId := some tabId, windowId := none, url := none,
          title := none, favIconUrl := none, index := none,
          savedAt := none, autoRepointed := some false } st with
    | Outcome.rejected err => Outcome.rejected err
    | Outcome.resolved st2 => Outcome.resolved (RawResponse.ok, st2)
  | Msg.other => Outcome.resolved (RawResponse.undefined, st)

/-- A store of entry objects seen as a store that could hold `null`. -/
def toRaw (st : Storage) : RawStorage :=
  { savedTabs :=
      match st.savedTabs with
      | some (StoredValue.array list) => some (RawStoredValue.array (list.map some))
      | some (StoredValue.nonArray text) => some (RawStoredValue.nonArray text)
      | none => none
    writes := st.writes }

/-- A response over entry objects seen as a response over arrays that could hold `null`. -/
def toRawResponse (r : Response) : RawResponse :=
  match r with
  | Response.ok => RawResponse.ok
  | Response.saved list => RawResponse.saved (list.map some)
  | Response.undefined => RawResponse.undefined

/-- Whether the stored value is absent, not an array, or an array without `null`. -/
def entriesOnly (st : RawStorage) : Bool :=
  match st.savedTabs with
  | some (RawStoredValue.array items) => items.all (fun x => x.isSome)
  | _ => true

/-- Every awaited call resolves. -/
def allResolve : ApiStatus :=
  { storageGet := true, storageSet := true, tabsQuery := true }

/-! ## Reading a JSON document back -/

/-- Reads a numeric property back from a JSON object. -/
def jsonNum (j : List (String × JsonScalar)) (k : String) : Option Int :=
  match j.lookup k with
  | some (JsonScalar.num n) => some n
  | _ => none

/-- Reads a string property back from a JSON object. -/
def jsonStr (j : List (String × JsonScalar)) (k : String) : Option String :=
  match j.lookup k with
  | some (JsonScalar.str s) => some s
  | _ => none

/-- Reads a boolean property back from a JSON object. -/
def jsonBool (j : List (String × JsonScalar)) (k : String) : Option Bool :=
  match j.lookup k with
  | some (JsonScalar.bool b) => some b
  | _ => none

/-- The entry read back from the JSON object printed for it. -/
def parseEntry (j : List (String × JsonScalar)) : SavedEntry :=
  { tabId := jsonNum j "tabId"
    windowId := jsonNum j "windowId"
    url := jsonStr j "url"
    title := jsonStr j "title"
    favIconUrl := jsonStr j "favIconUrl"
    index := (jsonNum j "index").map Int.toNat
    savedAt := ((jsonNum j "savedAt").getD 0).toNat
    autoRepointed := (jsonBool j "autoRepointed").getD false }

/-! ## Reference descriptions used in the statements -/

/-- Positions, counted from `i`, of the elements satisfying `p`. -/
def idxsFrom {α : Type} (p : α → Bool) (i : Nat) : List α → List Nat
  | [] => []
  | e :: es => if p e then i :: idxsFrom p (i + 1) es else idxsFrom p (i + 1) es

/-- The stored index read as `entry.index ?? 0`. -/
def oldIndexOf (entry : SavedEntry) : Nat :=
  (nullish entry.index (some 0)).getD 0

/-- The entry written for an affected entry, when a replacement exists. -/
def successorOf (b : Browser) (tabs : List Tab) (entry : SavedEntry) : Option SavedEntry :=
  (findReplacement tabs (oldIndexOf entry)).map (fun r => repoint entry (liveOf b r))

/-- Entry by entry description of the closure reconciliation: an entry pointing at the
closed tab becomes its successor or disappears, any other entry stays. -/
def reconcileSpec (b : Browser) (tabs : List Tab) (closedTabId : Int)
    (list : List SavedEntry) : List SavedEntry :=
  list.filterMap
    (fun e => if e.tabId == some closedTabId then successorOf b tabs e else some e)

/-- The content of a list position after the second loop of `onRemoved`. -/
def stepEntry (b : Browser) (tabs : List Tab) (closedTabId : Int) (e : SavedEntry) : SavedEntry :=
  if e.tabId == some closedTabId then (successorOf b tabs e).getD e else e

/-- Whether the second loop of `onRemoved` pushes the position of `e` on `toRemove`. -/
def dropped (b : Browser) (tabs : List Tab) (closedTabId : Int) (e : SavedEntry) : Bool :=
  e.tabId == some closedTabId && (successorOf b tabs e).isNone

/-- The window queried by `onRemoved`. -/
def affectedWindow (closedTabId : Int) (removeInfo : RemoveInfo)
    (list : List SavedEntry) : Option Int :=
  nullish removeInfo.windowId
    ((list.find? (fun e => e.tabId == some closedTabId)).bind (·.windowId))

/-- The sorted live tabs used by `onRemoved` on the list `list`. -/
def liveTabs (b : Browser) (closedTabId : Int) (removeInfo : RemoveInfo)
    (list : List SavedEntry) : List Tab :=
  sortTabs (b.tabsInWindow (affectedWindow closedTabId removeInfo list))

/-- The index of a tab, `0` when missing. -/
def tabKey (t : Tab) : Nat :=
  t.index.getD 0

/-- The events the background script listens to. -/
inductive Event where
  | tabUpdated (tabId : Int) (changeInfo : ChangeInfo) (tab : Tab)
  | tabMoved (tabId : Int) (toIndex : Nat)
  | tabRemoved (closedTabId : Int) (removeInfo : RemoveInfo)
  | message (msg : Msg)
deriving DecidableEq, Repr

/-- One step of the system: the listener registered for the event, run on the store. -/
def step (b : Browser) (ev : Event) (st : Storage) : Storage :=
  match ev with
  | Event.tabUpdated tabId changeInfo tab => onUpdated tabId changeInfo tab st
  | Event.tabMoved tabId toIndex => onMoved tabId toIndex st
  | Event.tabRemoved closedTabId removeInfo => onRemoved b closedTabId removeInfo st
  | Event.message msg => (onMessage b msg st).2

/-- The `(tabId, windowId)` pairs of a list, in order. -/
def tabPairs (list : List SavedEntry) : List (Option Int × Option Int) :=
  list.map (fun e => (e.tabId, e.windowId))

/-- The patch sent by `CLEAR_REPOINTED_FLAG`. -/
def clearFlagPatch (tabId : Option Int) : EntryPatch :=
  { matchTabId := none, tabId := some tabId, windowId := none, url := none,
    title := none, favIconUrl := none, index := none,
    savedAt := none, autoRepointed := some false }

/-! ## Sample inputs -/

/-- A tab of window 7 with the given id and index. -/
def sampleTab (id : Int) (index : Nat) : Tab :=
  { id := some id, windowId := some 7, url := some "https://example.org/", title := some "live",
    favIconUrl := none, index := some index }

/-- An entry saved at time 1000 for a tab of window 7. -/
def sampleEntry (tabId : Int) (index : Nat) : SavedEntry :=
  { tabId := some tabId, windowId := some 7, url := some "https://saved.example/",
    title := some "saved", favIconUrl := none, index := some index, savedAt := 1000,
    autoRepointed := false }

/-- A browser whose window holds `tabs`, the first of them active, at time 2000. -/
def sampleBrowser (tabs : List Tab) : Browser :=
  { activeTab := tabs.head?
    tabsInWindow := fun _ => tabs
    getTab := fun id => tabs.find? (fun t => t.id == id)
    windowsUpdate := fun _ => true
    tabsUpdate := fun id => tabs.any (fun t => t.id == id)
    now := 2000 }

/-- A store holding `list`, never written so far. -/
def sampleStore (list : List SavedEntry) : Storage :=
  { savedTabs := some (StoredValue.array list), writes := 0 }

/-- A tab closed in window 7 while the window stays open. -/
def sampleClose : RemoveInfo :=
  { windowId := some 7, isWindowClosing := false }

/-- Four tabs at indices 0 to 3; the tab at index 2 has id 99. -/
def exactBrowser : Browser :=
  sampleBrowser [sampleTab 10 0, sampleTab 11 1, sampleTab 99 2, sampleTab 12 3]

/-- A list whose second entry points at tab 1, last seen at index 2. -/
def exactStore : Storage :=
  sampleStore [sampleEntry 4 0, sampleEntry 1 2]

/-- Two tabs, at indices 1 and 0, in the order the query returns them. -/
def fallbackBrowser : Browser :=
  sampleBrowser [sampleTab 11 1, sampleTab 10 0]

/-- A list whose only entry points at tab 1, last seen at index 5. -/
def fallbackStore : Storage :=
  sampleStore [sampleEntry 1 5]

/-- A browser whose queried window has no tab left. -/
def emptyBrowser : Browser :=
  sampleBrowser []

/-- A list with two entries for tab 1 around an entry for tab 4. -/
def mixedStore : Storage :=
  sampleStore [sampleEntry 1 5, sampleEntry 4 0, sampleEntry 1 0]

/-- The last tab of window 7 closed together with the window. -/
def sampleWindowClose : RemoveInfo :=
  { windowId := some 7, isWindowClosing := true }

/-- A patch naming only `title`, routed to tab 1 through `tabId`. -/
def titlePatch : EntryPatch :=
  { matchTabId := none, tabId := some (some 1), windowId := none, url := none,
    title := some (some "X"), favIconUrl := none, index := none, savedAt := none,
    autoRepointed := none }

/-- The browser of `exactBrowser` a moment later: same active tab id and window, another
title and clock. -/
def laterBrowser : Browser :=
  { activeTab := some { id := some 10, windowId := some 7, url := some "https://example.org/next",
                        title := some "later", favIconUrl := none, index := some 3 }
    tabsInWindow := fun _ => []
    getTab := fun _ => none
    windowsUpdate := fun _ => true
    tabsUpdate := fun _ => true
    now := 3000 }

/-- A store whose key was never set. -/
def absentStore : Storage :=
  { savedTabs := none, writes := 0 }

/-- A store whose key holds a JSON object instead of an array. -/
def objectStore : Storage :=
  { savedTabs := some (StoredValue.nonArray "\x7b\x7d"), writes := 0 }

/-- Window 7 with tab 5 at index 0 active. -/
def firstBrowser : Browser :=
  sampleBrowser [sampleTab 5 0]

/-- Window 7 with tab 1 at index 1 active, next to tab 5. -/
def secondBrowser : Browser :=
  sampleBrowser [sampleTab 1 1, sampleTab 5 0]

/-- The store after saving tab 5 and then tab 1, starting from nothing. -/
def twoSavedStore : Storage :=
  addCurrentTab secondBrowser (addCurrentTab firstBrowser absentStore)

/-- Window 7 with tab 1 at index 0 active. -/
def savingOneBrowser : Browser :=
  sampleBrowser [sampleTab 1 0]

/-- Window 7 with tab 5 at index 1 active, next to tab 1. -/
def savingFiveBrowser : Browser :=
  sampleBrowser [sampleTab 5 1, sampleTab 1 0]

/-- The store after saving tab 1 and then tab 5, starting from nothing, and then closing
tab 1 while tab 5 stays: two entries for tab 5, the second one re-pointed. -/
def duplicateStore : Storage :=
  onRemoved firstBrowser 1 sampleClose
    (addCurrentTab savingFiveBrowser (addCurrentTab savingOneBrowser absentStore))

/-- A stored array whose only element is `null`. -/
def nullStore : RawStorage :=
  { savedTabs := some (RawStoredValue.array [none]), writes := 0 }

/-- The query for the active tab rejects, the storage calls resolve. -/
def queryRejects : ApiStatus :=
  { storageGet := true, storageSet := true, tabsQuery := false }

/-- Reading the storage rejects. -/
def storageRejects : ApiStatus :=
  { storageGet := false, storageSet := true, tabsQuery := true }

/-! ## Serialization is faithful -/

theorem parseEntry_entryToJson (e : SavedEntry) : parseEntry (entryToJson e) = e := by
  obtain ⟨tabId, windowId, url, title, favIconUrl, index, savedAt, autoRepointed⟩ := e
  cases tabId <;> cases windowId <;> cases url <;> cases title <;> cases favIconUrl <;>
    cases index <;>
    simp [parseEntry, entryToJson, optField, jsonNum, jsonStr, jsonBool, List.lookup]

theorem entryToJson_injective : Function.Injective entryToJson := by
  intro a b h
  have h2 := congrArg parseEntry h
  simpa [parseEntry_entryToJson] using h2

theorem stringify_injective : Function.Injective stringify := by
  intro a b h
  exact List.map_injective_iff.mpr entryToJson_injective h

theorem stringify_beq_iff (a b : List SavedEntry) : (stringify a == stringify b) = true ↔ a = b := by
  constructor
  · intro h
    exact stringify_injective (by simpa using h)
  · intro h
    simp [h]

/-- `setSavedIfChanged` in terms of equality of lists. -/
theorem setSavedIfChanged_eq (next : List SavedEntry) (st : Storage) :
    setSavedIfChanged next st =
      if getSaved st = next then st
      else { savedTabs := some (StoredValue.array next), writes := st.writes + 1 } := by
  unfold setSavedIfChanged
  by_cases h : getSaved st = next
  · have hb : (stringify (getSaved st) == stringify next) = true := (stringify_beq_iff _ _).mpr h
    rw [if_pos h]
    simp only [hb, Bool.not_true, Bool.false_eq_true, if_false]
  · have hb : ¬ (stringify (getSaved st) == stringify next) = true :=
      fun hb => h ((stringify_beq_iff _ _).mp hb)
    have hb2 : (stringify (getSaved st) == stringify next) = false := by
      simpa using hb
    rw [if_neg h]
    simp only [hb2, Bool.not_false, if_true]

/-- What `setSavedIfChanged` leaves in the store: the list read back is `next`. -/
theorem getSaved_setSavedIfChanged (next : List SavedEntry) (st : Storage) :
    getSaved (setSavedIfChanged next st) = next := by
  rw [setSavedIfChanged_eq]
  by_cases h : getSaved st = next
  · rw [if_pos h]; exact h
  · rw [if_neg h]; rfl

/-! ## The loops of `onRemoved` -/

theorem affectedFrom_eq_idxsFrom (closedTabId : Int) (list : List SavedEntry) (i : Nat) :
    affectedFrom closedTabId i list = idxsFrom (fun e => e.tabId == some closedTabId) i list := by
  induction list generalizing i with
  | nil => rfl
  | cons e es ih => simp only [affectedFrom, idxsFrom, ih]

theorem idxsFrom_ge {α : Type} (p : α → Bool) (l : List α) (i : Nat) :
    ∀ x ∈ idxsFrom p i l, i ≤ x := by
  induction l generalizing i with
  | nil => intro x hx; simp [idxsFrom] at hx
  | cons e es ih =>
    intro x hx
    unfold idxsFrom at hx
    split at hx
    · rcases List.mem_cons.mp hx with h | h
      · omega
      · have := ih (i + 1) x h; omega
    · have := ih (i + 1) x hx; omega

theorem idxsFrom_sorted {α : Type} (p : α → Bool) (l : List α) (i : Nat) :
    (idxsFrom p i l).Sorted (· < ·) := by
  induction l generalizing i with
  | nil => simp [idxsFrom]
  | cons e es ih =>
    unfold idxsFrom
    split
    · refine List.sorted_cons.mpr ⟨?_, ih (i + 1)⟩
      intro x hx
      have := idxsFrom_ge p es (i + 1) x hx
      omega
    · exact ih (i + 1)

theorem orderedInsert_of_forall_not {α : Type} (r : α → α → Prop) [DecidableRel r] (a : α)
    (l : List α) (h : ∀ x ∈ l, ¬ r a x) : l.orderedInsert r a = l ++ [a] := by
  induction l with
  | nil => rfl
  | cons x xs ih =>
    have hx : ¬ r a x := h x (List.mem_cons_self _ _)
    simp only [List.orderedInsert, hx, if_false, List.cons_append]
    rw [ih (fun y hy => h y (List.mem_cons_of_mem _ hy))]

/-- Sorting an ascending list of positions with the comparator `b - a` reverses it. -/
theorem sortDesc_of_sorted (l : List Nat) (h : l.Sorted (· < ·)) :
    l.insertionSort (fun (a b : Nat) => (b : Int) - (a : Int) ≤ 0) = l.reverse := by
  induction l with
  | nil => rfl
  | cons a as ih =>
    have hs := List.sorted_cons.mp h
    simp only [List.insertionSort, List.reverse_cons]
    rw [ih hs.2]
    apply orderedInsert_of_forall_not
    intro x hx
    have := hs.1 x (List.mem_reverse.mp hx)
    omega

theorem getElem?_append_cons_length {α : Type} (pre : List α) (e : α) (es : List α) :
    (pre ++ e :: es)[pre.length]? = some e := by
  rw [List.getElem?_append_right (le_refl _)]
  simp

theorem set_append_cons_length {α : Type} (pre : List α) (e x : α) (es : List α) :
    (pre ++ e :: es).set pre.length x = pre ++ x :: es := by
  rw [List.set_append_right _ _ (le_refl _)]
  simp

/-- The second loop of `onRemoved`, run on the positions found by the first loop. -/
theorem foldl_reconcileStep (b : Browser) (tabs : List Tab) (closedTabId : Int) :
    ∀ (suf pre : List SavedEntry) (R : List Nat),
      (affectedFrom closedTabId pre.length suf).foldl (reconcileStep b tabs) (pre ++ suf, R) =
        (pre ++ suf.map (stepEntry b tabs closedTabId),
          R ++ idxsFrom (dropped b tabs closedTabId) pre.length suf) := by
  intro suf
  induction suf with
  | nil => intro pre R; simp [affectedFrom, idxsFrom]
  | cons e es ih =>
    intro pre R
    have hlen : (pre ++ [e]).length = pre.length + 1 := by simp
    by_cases he : (e.tabId == some closedTabId) = true
    · cases hs : findReplacement tabs (oldIndexOf e) with
      | none =>
        have hstep : reconcileStep b tabs (pre ++ e :: es, R) pre.length =
            ((pre ++ [e]) ++ es, R ++ [pre.length]) := by
          have hs2 : findReplacement tabs ((nullish e.index (some 0)).getD 0) = none := hs
          simp only [reconcileStep, getElem?_append_cons_length, hs2]
          simp
        have h1 : stepEntry b tabs closedTabId e = e := by
          simp [stepEntry, he, successorOf, hs]
        have h2 : dropped b tabs closedTabId e = true := by
          simp [dropped, he, successorOf, hs]
        simp only [affectedFrom, he, if_true, List.foldl_cons, hstep, idxsFrom, h2, List.map_cons,
          h1]
        rw [← hlen, ih (pre ++ [e]) (R ++ [pre.length])]
        simp
      | some r =>
        have hstep : reconcileStep b tabs (pre ++ e :: es, R) pre.length =
            ((pre ++ [repoint e (liveOf b r)]) ++ es, R) := by
          have hs2 : findReplacement tabs ((nullish e.index (some 0)).getD 0) = some r := hs
          simp only [reconcileStep, getElem?_append_cons_length, hs2, set_append_cons_length]
          simp
        have h1 : stepEntry b tabs closedTabId e = repoint e (liveOf b r) := by
          simp [stepEntry, he, successorOf, hs]
        have h2 : dropped b tabs closedTabId e = false := by
          simp [dropped, successorOf, hs]
        have hlen2 : (pre ++ [repoint e (liveOf b r)]).length = pre.length + 1 := by simp
        simp only [affectedFrom, he, if_true, List.foldl_cons, hstep, idxsFrom, h2, List.map_cons,
          h1, Bool.false_eq_true, if_false]
        rw [← hlen2, ih (pre ++ [repoint e (liveOf b r)]) R]
        simp
    · have h1 : stepEntry b tabs closedTabId e = e := by
        simp [stepEntry, he]
      have h2 : dropped b tabs closedTabId e = false := by
        simp [dropped, he]
      simp only [affectedFrom, he, if_false, idxsFrom, h2, List.map_cons, h1, Bool.false_eq_true]
      rw [← hlen]
      have := ih (pre ++ [e]) R
      simpa using this

/-- Erasing the positions of the elements satisfying `p`, largest position first,
leaves the other elements in place. -/
theorem foldr_eraseIdx_idxsFrom {α β : Type} (p : α → Bool) (g : α → β) :
    ∀ (suf : List α) (pre : List β),
      (idxsFrom p pre.length suf).foldr (fun i l => l.eraseIdx i) (pre ++ suf.map g) =
        pre ++ (suf.filter (fun e => !p e)).map g := by
  intro suf
  induction suf with
  | nil => intro pre; simp [idxsFrom]
  | cons e es ih =>
    intro pre
    have hlen : (pre ++ [g e]).length = pre.length + 1 := by simp
    have hsplit : pre ++ List.map g (e :: es) = (pre ++ [g e]) ++ es.map g := by simp
    by_cases hp : p e = true
    · simp only [idxsFrom, hp, if_true, List.foldr_cons, hsplit]
      rw [← hlen, ih (pre ++ [g e])]
      rw [List.eraseIdx_append_of_lt_length (by simp)]
      rw [List.eraseIdx_append_of_length_le (le_refl _)]
      simp [hp]
    · simp only [idxsFrom, hp, if_false, hsplit, Bool.false_eq_true]
      rw [← hlen, ih (pre ++ [g e])]
      simp [hp]

theorem filter_map_eq_filterMap (b : Browser) (tabs : List Tab) (closedTabId : Int)
    (list : List SavedEntry) :
    (list.filter (fun e => !dropped b tabs closedTabId e)).map (stepEntry b tabs closedTabId) =
      reconcileSpec b tabs closedTabId list := by
  unfold reconcileSpec
  induction list with
  | nil => rfl
  | cons e es ih =>
    by_cases he : (e.tabId == some closedTabId) = true
    · cases hs : successorOf b tabs e with
      | none =>
        have hd : dropped b tabs closedTabId e = true := by simp [dropped, he, hs]
        simp only [List.filter_cons, hd, Bool.not_true, Bool.false_eq_true, if_false,
          List.filterMap_cons, he, if_true, hs]
        exact ih
      | some x =>
        have hd : dropped b tabs closedTabId e = false := by simp [dropped, hs]
        have h1 : stepEntry b tabs closedTabId e = x := by simp [stepEntry, he, hs]
        simp only [List.filter_cons, hd, Bool.not_false, if_true, List.map_cons, h1,
          List.filterMap_cons, he, hs]
        rw [ih]
    · have hd : dropped b tabs closedTabId e = false := by simp [dropped, he]
      have h1 : stepEntry b tabs closedTabId e = e := by simp [stepEntry, he]
      simp only [List.filter_cons, hd, Bool.not_false, if_true, List.map_cons, h1,
        List.filterMap_cons, he, Bool.false_eq_true, if_false]
      rw [ih]

/-- The list handed to the final write by `onRemoved` is the entry by entry description. -/
theorem reconcileList_eq (b : Browser) (tabs : List Tab) (closedTabId : Int)
    (list : List SavedEntry) :
    reconcileList b tabs (affectedIdxs closedTabId list) list =
      reconcileSpec b tabs closedTabId list := by
  have hloop := foldl_reconcileStep b tabs closedTabId list [] []
  simp only [List.length_nil, List.nil_append] at hloop
  have hsplice : spliceAll (idxsFrom (dropped b tabs closedTabId) 0 list)
      (list.map (stepEntry b tabs closedTabId)) = reconcileSpec b tabs closedTabId list := by
    unfold spliceAll
    rw [sortDesc_of_sorted _ (idxsFrom_sorted _ _ _), List.foldl_reverse]
    have := foldr_eraseIdx_idxsFrom (dropped b tabs closedTabId) (stepEntry b tabs closedTabId)
      list []
    simp only [List.length_nil, List.nil_append] at this
    rw [this, filter_map_eq_filterMap]
  unfold reconcileList affectedIdxs
  rw [hloop]
  by_cases hR : idxsFrom (dropped b tabs closedTabId) 0 list = []
  · rw [hR] at hsplice
    simp only [hR, List.length_nil, bne_self_eq_false, Bool.false_eq_true, if_false]
    rw [← hsplice]
    simp [spliceAll]
  · have hne : ((idxsFrom (dropped b tabs closedTabId) 0 list).length != 0) = true := by
      simp [hR]
    simp only [hne, if_true]
    exact hsplice

theorem idxsFrom_head {α : Type} (p : α → Bool) :
    ∀ (l : List α) (i : Nat),
      match idxsFrom p i l with
      | [] => ∀ e ∈ l, p e = false
      | f :: _ => i ≤ f ∧ l[f - i]? = l.find? p := by
  intro l
  induction l with
  | nil => intro i; simp [idxsFrom]
  | cons e es ih =>
    intro i
    by_cases hp : p e = true
    · simp [idxsFrom, hp]
    · have hp2 : p e = false := by simpa using hp
      have := ih (i + 1)
      simp only [idxsFrom, hp2, Bool.false_eq_true, if_false]
      split
      · rename_i heq
        rw [heq] at this
        intro x hx
        rcases List.mem_cons.mp hx with h | h
        · rw [h]; exact hp2
        · exact this x h
      · rename_i f rest heq
        rw [heq] at this
        obtain ⟨h1, h2⟩ := this
        refine ⟨by omega, ?_⟩
        have hf : f - i = (f - (i + 1)) + 1 := by omega
        rw [hf, List.getElem?_cons_succ, h2, List.find?_cons_of_neg _ hp]

theorem filter_eq_self_of_unaffected (closedTabId : Int) (list : List SavedEntry)
    (h : ∀ e ∈ list, (e.tabId == some closedTabId) = false) :
    list.filter (fun e => e.tabId != some closedTabId) = list := by
  apply List.filter_eq_self.mpr
  intro e he
  simp [bne, h e he]

theorem reconcileSpec_eq_self_of_unaffected (b : Browser) (tabs : List Tab) (closedTabId : Int)
    (list : List SavedEntry) (h : ∀ e ∈ list, (e.tabId == some closedTabId) = false) :
    reconcileSpec b tabs closedTabId list = list := by
  unfold reconcileSpec
  induction list with
  | nil => rfl
  | cons e es ih =>
    have he := h e (List.mem_cons_self _ _)
    simp only [List.filterMap_cons, he, Bool.false_eq_true, if_false]
    rw [ih (fun x hx => h x (List.mem_cons_of_mem _ hx))]

/-- The list read back after `onRemoved`. -/
theorem getSaved_onRemoved (b : Browser) (closedTabId : Int) (removeInfo : RemoveInfo)
    (st : Storage) :
    getSaved (onRemoved b closedTabId removeInfo st) =
      if removeInfo.isWindowClosing then
        (getSaved st).filter (fun e => e.tabId != some closedTabId)
      else
        reconcileSpec b (liveTabs b closedTabId removeInfo (getSaved st)) closedTabId
          (getSaved st) := by
  have hhead := idxsFrom_head (fun e : SavedEntry => e.tabId == some closedTabId) (getSaved st) 0
  unfold onRemoved
  simp only []
  cases hidx : affectedIdxs closedTabId (getSaved st) with
  | nil =>
    have hidx2 : idxsFrom (fun e : SavedEntry => e.tabId == some closedTabId) 0 (getSaved st) = [] := by
      rw [← affectedFrom_eq_idxsFrom]; exact hidx
    rw [hidx2] at hhead
    simp only []
    rw [filter_eq_self_of_unaffected _ _ hhead, reconcileSpec_eq_self_of_unaffected _ _ _ _ hhead]
    simp
  | cons first rest =>
    have hidx2 : idxsFrom (fun e : SavedEntry => e.tabId == some closedTabId) 0 (getSaved st) =
        first :: rest := by
      rw [← affectedFrom_eq_idxsFrom]; exact hidx
    rw [hidx2] at hhead
    simp only [Nat.sub_zero] at hhead
    simp only []
    by_cases hw : removeInfo.isWindowClosing = true
    · simp only [hw, if_true, getSaved_setSavedIfChanged]
    · simp only [hw, if_false, getSaved_setSavedIfChanged, Bool.false_eq_true]
      rw [← hidx, reconcileList_eq]
      unfold liveTabs affectedWindow
      rw [hhead.2]

/-! ## Choice of the successor -/

theorem liveOf_eq (b : Browser) (t : Tab) : liveOf b t = (b.getTab t.id).getD t := by
  unfold liveOf
  cases b.getTab t.id <;> rfl

theorem sortTabs_perm (tabs : List Tab) : (sortTabs tabs).Perm tabs :=
  List.perm_insertionSort _ tabs

theorem sortTabs_length (tabs : List Tab) : (sortTabs tabs).length = tabs.length :=
  (sortTabs_perm tabs).length_eq

theorem findReplacement_of_find (tabs : List Tab) (k : Nat) (t : Tab)
    (h : tabs.find? (fun t => t.index == some k) = some t) : findReplacement tabs k = some t := by
  simp only [findReplacement, h]

theorem findReplacement_of_not_find (tabs : List Tab) (k : Nat) (hne : tabs ≠ [])
    (h : tabs.find? (fun t => t.index == some k) = none) :
    ∃ t, tabs[min k (tabs.length - 1)]? = some t ∧ findReplacement tabs k = some t := by
  have hpos : 0 < tabs.length := List.length_pos.mpr hne
  have hlt : min k (tabs.length - 1) < tabs.length := by
    have := Nat.min_le_right k (tabs.length - 1)
    omega
  refine ⟨tabs[min k (tabs.length - 1)], List.getElem?_eq_getElem hlt, ?_⟩
  have hb : (tabs.length != 0) = true := by simpa using hne
  simp only [findReplacement, h, hb, if_true]
  exact List.getElem?_eq_getElem hlt

theorem findReplacement_isSome (tabs : List Tab) (k : Nat) (hne : tabs ≠ []) :
    ∃ t, findReplacement tabs k = some t := by
  cases h : tabs.find? (fun t => t.index == some k) with
  | some t => exact ⟨t, findReplacement_of_find tabs k t h⟩
  | none =>
    obtain ⟨t, _, ht⟩ := findReplacement_of_not_find tabs k hne h
    exact ⟨t, ht⟩

theorem findReplacement_nil (k : Nat) : findReplacement [] k = none := by
  simp [findReplacement]

/-- With a live tab left, no position is erased: the reconciled list is a `map`. -/
theorem reconcileSpec_eq_map (b : Browser) (tabs : List Tab) (closedTabId : Int)
    (list : List SavedEntry) (hne : tabs ≠ []) :
    reconcileSpec b tabs closedTabId list = list.map (stepEntry b tabs closedTabId) := by
  unfold reconcileSpec
  induction list with
  | nil => rfl
  | cons e es ih =>
    obtain ⟨t, ht⟩ := findReplacement_isSome tabs (oldIndexOf e) hne
    have hs : successorOf b tabs e = some (repoint e (liveOf b t)) := by
      simp [successorOf, ht]
    by_cases he : (e.tabId == some closedTabId) = true
    · have h1 : stepEntry b tabs closedTabId e = repoint e (liveOf b t) := by
        simp [stepEntry, he, hs]
      simp only [List.filterMap_cons, he, if_true, hs, List.map_cons, h1]
      rw [ih]
    · have h1 : stepEntry b tabs closedTabId e = e := by
        simp [stepEntry, he]
      simp only [List.filterMap_cons, he, if_false, List.map_cons, h1, Bool.false_eq_true]
      rw [ih]

/-- Without a live tab, every affected entry is erased. -/
theorem reconcileSpec_nil (b : Browser) (closedTabId : Int) (list : List SavedEntry) :
    reconcileSpec b [] closedTabId list = list.filter (fun e => e.tabId != some closedTabId) := by
  unfold reconcileSpec
  induction list with
  | nil => rfl
  | cons e es ih =>
    have hs : successorOf b [] e = none := by
      simp [successorOf, findReplacement_nil]
    by_cases he : (e.tabId == some closedTabId) = true
    · have hb : (e.tabId != some closedTabId) = false := by simp [bne, he]
      simp only [List.filterMap_cons, he, if_true, hs, List.filter_cons, hb, Bool.false_eq_true,
        if_false]
      exact ih
    · have hb : (e.tabId != some closedTabId) = true := by simp [bne, he]
      simp only [List.filterMap_cons, he, if_false, List.filter_cons, hb, if_true,
        Bool.false_eq_true]
      rw [ih]

theorem liveTabs_ne_nil (b : Browser) (closedTabId : Int) (removeInfo : RemoveInfo)
    (list : List SavedEntry)
    (h : b.tabsInWindow (affectedWindow closedTabId removeInfo list) ≠ []) :
    liveTabs b closedTabId removeInfo list ≠ [] := by
  intro hnil
  have := sortTabs_length (b.tabsInWindow (affectedWindow closedTabId removeInfo list))
  unfold liveTabs at hnil
  rw [hnil] at this
  exact h (List.length_eq_zero.mp this.symm)

/-- The entry found at a position after a closure that leaves a live tab. -/
theorem getElem?_onRemoved (b : Browser) (closedTabId : Int) (removeInfo : RemoveInfo)
    (st : Storage) (i : Nat) (e : SavedEntry) (hw : removeInfo.isWindowClosing = false)
    (hne : b.tabsInWindow (affectedWindow closedTabId removeInfo (getSaved st)) ≠ [])
    (hi : (getSaved st)[i]? = some e) :
    (getSaved (onRemoved b closedTabId removeInfo st))[i]? =
      some (stepEntry b (liveTabs b closedTabId removeInfo (getSaved st)) closedTabId e) := by
  rw [getSaved_onRemoved, hw]
  simp only [Bool.false_eq_true, if_false]
  rw [reconcileSpec_eq_map _ _ _ _ (liveTabs_ne_nil b closedTabId removeInfo _ hne)]
  rw [List.getElem?_map, hi]
  rfl

theorem stepEntry_of_replacement (b : Browser) (tabs : List Tab) (closedTabId : Int)
    (e : SavedEntry) (t : Tab) (he : e.tabId = some closedTabId)
    (ht : findReplacement tabs (oldIndexOf e) = some t) :
    stepEntry b tabs closedTabId e =
      { tabId := ((b.getTab t.id).getD t).id
        windowId := ((b.getTab t.id).getD t).windowId
        url := ((b.getTab t.id).getD t).url
        title := ((b.getTab t.id).getD t).title
        favIconUrl := ((b.getTab t.id).getD t).favIconUrl
        index := ((b.getTab t.id).getD t).index
        savedAt := e.savedAt
        autoRepointed := true } := by
  simp [stepEntry, he, successorOf, ht, repoint, liveOf_eq]

/-! ## Closure reconciliation -/

/-- C1. Closure with an exact-index successor: when the window stays open, an entry at
position `i` that points at the closed tab and whose stored index (read as
`entry.index ?? 0`) is the index of some live tab of the queried window is found at
position `i` afterwards, re-pointed to the first tab with that index in the sorted live
tabs: `tabId`, `windowId`, `url`, `title`, `favIconUrl` and `index` are those of the
re-fetched tab (of the queried tab when the re-fetch fails), `autoRepointed` is `true`,
`savedAt` is kept. -/
theorem closure_exact_index_successor (b : Browser) (closedTabId : Int)
    (removeInfo : RemoveInfo) (st : Storage) (i : Nat) (e : SavedEntry)
    (hw : removeInfo.isWindowClosing = false)
    (hi : (getSaved st)[i]? = some e)
    (he : e.tabId = some closedTabId)
    (hlive : ∃ t ∈ b.tabsInWindow (affectedWindow closedTabId removeInfo (getSaved st)),
      t.index = some (oldIndexOf e)) :
    ∃ t live,
      (liveTabs b closedTabId removeInfo (getSaved st)).find?
          (fun t => t.index == some (oldIndexOf e)) = some t ∧
      t.index = some (oldIndexOf e) ∧
      live = (b.getTab t.id).getD t ∧
      (getSaved (onRemoved b closedTabId removeInfo st))[i]? =
        some { tabId := live.id, windowId := live.windowId, url := live.url,
               title := live.title, favIconUrl := live.favIconUrl, index := live.index,
               savedAt := e.savedAt, autoRepointed := true } := by
  obtain ⟨t0, ht0, hidx0⟩ := hlive
  have hne : b.tabsInWindow (affectedWindow closedTabId removeInfo (getSaved st)) ≠ [] :=
    List.ne_nil_of_mem ht0
  have hmem : t0 ∈ liveTabs b closedTabId removeInfo (getSaved st) :=
    (sortTabs_perm _).mem_iff.mpr ht0
  cases hf : (liveTabs b closedTabId removeInfo (getSaved st)).find?
      (fun t => t.index == some (oldIndexOf e)) with
  | none =>
    have := List.find?_eq_none.mp hf t0 hmem
    simp [hidx0] at this
  | some t =>
    have hp := List.find?_some hf
    refine ⟨t, (b.getTab t.id).getD t, rfl, by simpa using hp, rfl, ?_⟩
    rw [getElem?_onRemoved b closedTabId removeInfo st i e hw hne hi]
    rw [stepEntry_of_replacement b _ closedTabId e t he (findReplacement_of_find _ _ _ hf)]

/-- Witness for `closure_exact_index_successor`: entry for tab 1 at index 2, the window
keeps tabs at indices 0 to 3 and the tab at index 2 has id 99. -/
theorem closure_exact_index_successor_witness :
    ∃ t live,
      (liveTabs exactBrowser 1 sampleClose (getSaved exactStore)).find?
          (fun t => t.index == some (oldIndexOf (sampleEntry 1 2))) = some t ∧
      t.index = some (oldIndexOf (sampleEntry 1 2)) ∧
      live = (exactBrowser.getTab t.id).getD t ∧
      (getSaved (onRemoved exactBrowser 1 sampleClose exactStore))[1]? =
        some { tabId := live.id, windowId := live.windowId, url := live.url,
               title := live.title, favIconUrl := live.favIconUrl, index := live.index,
               savedAt := (sampleEntry 1 2).savedAt, autoRepointed := true } :=
  closure_exact_index_successor exactBrowser 1 sampleClose exactStore 1 (sampleEntry 1 2)
    rfl rfl rfl ⟨sampleTab 99 2, by decide, rfl⟩

/-! ## Sorted live tabs under contiguous positions -/

theorem orderedInsert_congr {α : Type} (r s : α → α → Prop) [DecidableRel r] [DecidableRel s]
    (a : α) (l : List α) (h : ∀ x ∈ l, (r a x ↔ s a x)) :
    l.orderedInsert r a = l.orderedInsert s a := by
  induction l with
  | nil => rfl
  | cons x xs ih =>
    have hx := h x (List.mem_cons_self _ _)
    have ih2 := ih (fun y hy => h y (List.mem_cons_of_mem _ hy))
    by_cases hr : r a x
    · have hs : s a x := hx.mp hr
      simp only [List.orderedInsert, hr, hs, if_true]
    · have hs : ¬ s a x := fun hs => hr (hx.mpr hs)
      simp only [List.orderedInsert, hr, hs, if_false, ih2]

theorem insertionSort_congr {α : Type} (r s : α → α → Prop) [DecidableRel r] [DecidableRel s]
    (l : List α) (h : ∀ x ∈ l, ∀ y ∈ l, (r x y ↔ s x y)) :
    l.insertionSort r = l.insertionSort s := by
  induction l with
  | nil => rfl
  | cons a as ih =>
    have ih2 := ih (fun x hx y hy => h x (List.mem_cons_of_mem _ hx) y (List.mem_cons_of_mem _ hy))
    simp only [List.insertionSort]
    rw [ih2]
    apply orderedInsert_congr
    intro x hx
    exact h a (List.mem_cons_self _ _) x
      (List.mem_cons_of_mem _ ((List.mem_insertionSort s).mp hx))

theorem compareIndex_le_iff (a b : Tab) (ha : a.index.isSome = true) (hb : b.index.isSome = true) :
    compareIndex a b ≤ 0 ↔ tabKey a ≤ tabKey b := by
  obtain ⟨x, hx⟩ := Option.isSome_iff_exists.mp ha
  obtain ⟨y, hy⟩ := Option.isSome_iff_exists.mp hb
  simp only [compareIndex, tabKey, hx, hy, Option.getD_some]
  omega

/-- When every live tab has an index, `sortTabs` orders the tabs by index. -/
theorem sortTabs_sorted (tabs : List Tab) (h : ∀ t ∈ tabs, t.index.isSome = true) :
    ((sortTabs tabs).map tabKey).Sorted (· ≤ ·) := by
  have hcongr : sortTabs tabs = tabs.insertionSort (fun a b => tabKey a ≤ tabKey b) := by
    unfold sortTabs
    apply insertionSort_congr
    intro x hx y hy
    exact compareIndex_le_iff x y (h x hx) (h y hy)
  rw [hcongr]
  haveI : IsTotal Tab (fun a b => tabKey a ≤ tabKey b) := ⟨fun a b => Nat.le_total _ _⟩
  haveI : IsTrans Tab (fun a b => tabKey a ≤ tabKey b) := ⟨fun _ _ _ h1 h2 => Nat.le_trans h1 h2⟩
  have hs := List.sorted_insertionSort (fun a b : Tab => tabKey a ≤ tabKey b) tabs
  exact List.pairwise_map.mpr hs

theorem index_of_contiguous (tabs : List Tab) (n : Nat)
    (hperm : (tabs.map (fun t => t.index)).Perm ((List.range n).map some)) :
    ∀ t ∈ tabs, ∃ k, k < n ∧ t.index = some k := by
  intro t ht
  have hm : t.index ∈ (List.range n).map some :=
    hperm.mem_iff.mp (List.mem_map_of_mem _ ht)
  obtain ⟨k, hk, hkeq⟩ := List.mem_map.mp hm
  exact ⟨k, List.mem_range.mp hk, hkeq.symm⟩

/-- Under contiguous positions the sorted live tabs list the indices `0 .. n-1` in order. -/
theorem sortTabs_keys_of_contiguous (tabs : List Tab) (n : Nat)
    (hperm : (tabs.map (fun t => t.index)).Perm ((List.range n).map some)) :
    (sortTabs tabs).map tabKey = List.range n := by
  have hall : ∀ t ∈ tabs, t.index.isSome = true := by
    intro t ht
    obtain ⟨k, _, hk⟩ := index_of_contiguous tabs n hperm t ht
    simp [hk]
  have hsorted := sortTabs_sorted tabs hall
  have hp1 : ((sortTabs tabs).map tabKey).Perm (tabs.map tabKey) := (sortTabs_perm tabs).map _
  have hp2 : (tabs.map tabKey).Perm (List.range n) := by
    have := hperm.map (fun o : Option Nat => o.getD 0)
    simpa [List.map_map, Function.comp_def, tabKey] using this
  exact List.eq_of_perm_of_sorted (hp1.trans hp2) hsorted (List.sorted_le_range n)

theorem sortTabs_getElem?_of_contiguous (tabs : List Tab) (n : Nat)
    (hperm : (tabs.map (fun t => t.index)).Perm ((List.range n).map some))
    (j : Nat) (hj : j < n) :
    ∃ t, (sortTabs tabs)[j]? = some t ∧ t ∈ tabs ∧ t.index = some j := by
  have hkeys := sortTabs_keys_of_contiguous tabs n hperm
  have hlen : (sortTabs tabs).length = n := by
    have := congrArg List.length hkeys
    simpa using this
  have hjl : j < (sortTabs tabs).length := by omega
  refine ⟨(sortTabs tabs)[j], List.getElem?_eq_getElem hjl, ?_, ?_⟩
  · exact (sortTabs_perm tabs).mem_iff.mp (List.getElem_mem _)
  · have hmem : (sortTabs tabs)[j] ∈ tabs :=
      (sortTabs_perm tabs).mem_iff.mp (List.getElem_mem _)
    obtain ⟨k, _, hk⟩ := index_of_contiguous tabs n hperm _ hmem
    have h1 : ((sortTabs tabs).map tabKey)[j]? = some (tabKey (sortTabs tabs)[j]) := by
      rw [List.getElem?_map, List.getElem?_eq_getElem hjl]
      rfl
    rw [hkeys, List.getElem?_range hj] at h1
    have h2 : tabKey (sortTabs tabs)[j] = k := by simp [tabKey, hk]
    rw [hk]
    have : j = k := by
      have := Option.some.inj h1
      omega
    rw [this]

/-- C2. Closure with the clamped fallback: when the window stays open, the queried live
set is not empty and no live tab has the stored index `oldIndex` of an entry pointing at
the closed tab, the entry stays at its position and is re-pointed to the tab at position
`min(oldIndex, liveCount - 1)` of the live tabs sorted by index, with `autoRepointed`
set to `true`. The sorted live tabs are a rearrangement of the queried ones, and they are
in ascending order of index when every live tab has an index. -/
theorem closure_clamped_fallback (b : Browser) (closedTabId : Int)
    (removeInfo : RemoveInfo) (st : Storage) (i : Nat) (e : SavedEntry)
    (hw : removeInfo.isWindowClosing = false)
    (hi : (getSaved st)[i]? = some e)
    (he : e.tabId = some closedTabId)
    (hne : b.tabsInWindow (affectedWindow closedTabId removeInfo (getSaved st)) ≠ [])
    (hno : ∀ t ∈ b.tabsInWindow (affectedWindow closedTabId removeInfo (getSaved st)),
      t.index ≠ some (oldIndexOf e)) :
    ∃ t live,
      (sortTabs (b.tabsInWindow (affectedWindow closedTabId removeInfo (getSaved st))))[
          min (oldIndexOf e)
            ((b.tabsInWindow (affectedWindow closedTabId removeInfo (getSaved st))).length - 1)]?
        = some t ∧
      (sortTabs (b.tabsInWindow (affectedWindow closedTabId removeInfo (getSaved st)))).Perm
        (b.tabsInWindow (affectedWindow closedTabId removeInfo (getSaved st))) ∧
      ((∀ u ∈ b.tabsInWindow (affectedWindow closedTabId removeInfo (getSaved st)),
          u.index.isSome = true) →
        (sortTabs (b.tabsInWindow (affectedWindow closedTabId removeInfo (getSaved st)))).Pairwise
          (fun u v => ∀ x y : Nat, u.index = some x → v.index = some y → x ≤ y)) ∧
      live = (b.getTab t.id).getD t ∧
      (getSaved (onRemoved b closedTabId removeInfo st)).length = (getSaved st).length ∧
      (getSaved (onRemoved b closedTabId removeInfo st))[i]? =
        some { tabId := live.id, windowId := live.windowId, url := live.url,
               title := live.title, favIconUrl := live.favIconUrl, index := live.index,
               savedAt := e.savedAt, autoRepointed := true } := by
  have hne2 := liveTabs_ne_nil b closedTabId removeInfo (getSaved st) hne
  have hf : (liveTabs b closedTabId removeInfo (getSaved st)).find?
      (fun t => t.index == some (oldIndexOf e)) = none := by
    apply List.find?_eq_none.mpr
    intro t ht
    have := hno t ((sortTabs_perm _).mem_iff.mp ht)
    simpa using this
  obtain ⟨t, hpos, hrep⟩ := findReplacement_of_not_find _ _ hne2 hf
  refine ⟨t, (b.getTab t.id).getD t, ?_, sortTabs_perm _, ?_, rfl, ?_, ?_⟩
  · have hl := sortTabs_length
      (b.tabsInWindow (affectedWindow closedTabId removeInfo (getSaved st)))
    unfold liveTabs at hpos
    rw [hl] at hpos
    exact hpos
  · intro hall
    have hs := sortTabs_sorted _ hall
    have hp := List.pairwise_map.mp hs
    refine hp.imp ?_
    intro u v huv x y hx hy
    simpa [tabKey, hx, hy] using huv
  · rw [getSaved_onRemoved, hw]
    simp only [Bool.false_eq_true, if_false]
    rw [reconcileSpec_eq_map _ _ _ _ hne2, List.length_map]
  · rw [getElem?_onRemoved b closedTabId removeInfo st i e hw hne hi]
    rw [stepEntry_of_replacement b _ closedTabId e t he hrep]

/-- Witness for `closure_clamped_fallback`: entry for tab 1 at index 5, the window keeps
tab 11 at index 1 and tab 10 at index 0, queried in this order. Position `min(5, 1) = 1`
of the sorted tabs holds tab 11, and the entry is re-pointed to tab 11 (position 1 of the
unsorted query result holds tab 10). -/
theorem closure_clamped_fallback_witness :
    (fallbackBrowser.tabsInWindow (affectedWindow 1 sampleClose (getSaved fallbackStore)) =
      [sampleTab 11 1, sampleTab 10 0]) ∧
    (∀ t ∈ fallbackBrowser.tabsInWindow (affectedWindow 1 sampleClose (getSaved fallbackStore)),
      t.index ≠ some (oldIndexOf (sampleEntry 1 5))) ∧
    (getSaved (onRemoved fallbackBrowser 1 sampleClose fallbackStore))[0]? =
      some { tabId := some 11, windowId := some 7, url := some "https://example.org/",
             title := some "live", favIconUrl := none, index := some 1,
             savedAt := 1000, autoRepointed := true } := by
  refine ⟨rfl, by decide, ?_⟩
  obtain ⟨t, live, hpos, _, _, hlive, _, hres⟩ :=
    closure_clamped_fallback fallbackBrowser 1 sampleClose fallbackStore 0 (sampleEntry 1 5)
      rfl rfl rfl (by decide) (by decide)
  have hs : (sortTabs (fallbackBrowser.tabsInWindow
      (affectedWindow 1 sampleClose (getSaved fallbackStore))))[
      min (oldIndexOf (sampleEntry 1 5))
        ((fallbackBrowser.tabsInWindow
          (affectedWindow 1 sampleClose (getSaved fallbackStore))).length - 1)]? =
      some (sampleTab 11 1) := by decide
  have ht : t = sampleTab 11 1 := Option.some.inj (hpos.symm.trans hs)
  subst ht
  subst hlive
  exact hres

/-- C3. Successor under contiguous tab positions: when the window stays open and its
`n ≥ 1` queried live tabs carry exactly the indices `0 .. n-1`, one tab per index, the
replacement chosen for an entry pointing at the closed tab, by exact match or by
fallback, is the one live tab whose index is `min(oldIndex, n - 1)`, it is found at that
position of the sorted live tabs, and the entry is re-pointed to it; for `oldIndex ≥ n`
this index is `n - 1`, the last tab of the window. -/
theorem closure_successor_contiguous (b : Browser) (closedTabId : Int)
    (removeInfo : RemoveInfo) (st : Storage) (i : Nat) (e : SavedEntry) (n : Nat)
    (hw : removeInfo.isWindowClosing = false)
    (hi : (getSaved st)[i]? = some e)
    (he : e.tabId = some closedTabId)
    (hn : 1 ≤ n)
    (hperm : ((b.tabsInWindow (affectedWindow closedTabId removeInfo (getSaved st))).map
      (fun t => t.index)).Perm ((List.range n).map some)) :
    ∃ t live,
      t ∈ b.tabsInWindow (affectedWindow closedTabId removeInfo (getSaved st)) ∧
      t.index = some (min (oldIndexOf e) (n - 1)) ∧
      (∀ u ∈ b.tabsInWindow (affectedWindow closedTabId removeInfo (getSaved st)),
        u.index = t.index → u = t) ∧
      findReplacement (liveTabs b closedTabId removeInfo (getSaved st)) (oldIndexOf e) = some t ∧
      (liveTabs b closedTabId removeInfo (getSaved st))[min (oldIndexOf e) (n - 1)]? = some t ∧
      live = (b.getTab t.id).getD t ∧
      (getSaved (onRemoved b closedTabId removeInfo st))[i]? =
        some { tabId := live.id, windowId := live.windowId, url := live.url,
               title := live.title, favIconUrl := live.favIconUrl, index := live.index,
               savedAt := e.savedAt, autoRepointed := true } := by
  have hm : min (oldIndexOf e) (n - 1) < n := by
    have := Nat.min_le_right (oldIndexOf e) (n - 1)
    omega
  obtain ⟨t0, hget0, hmem0, hidx0⟩ := sortTabs_getElem?_of_contiguous _ n hperm _ hm
  have hne : b.tabsInWindow (affectedWindow closedTabId removeInfo (getSaved st)) ≠ [] :=
    List.ne_nil_of_mem hmem0
  have hne2 := liveTabs_ne_nil b closedTabId removeInfo (getSaved st) hne
  have hlen : (liveTabs b closedTabId removeInfo (getSaved st)).length = n := by
    have := congrArg List.length (sortTabs_keys_of_contiguous _ n hperm)
    simpa [liveTabs] using this
  have hnodup : ((b.tabsInWindow (affectedWindow closedTabId removeInfo (getSaved st))).map
      (fun t => t.index)).Nodup := by
    apply hperm.nodup_iff.mpr
    exact (List.nodup_range n).map (fun _ _ h => Option.some.inj h)
  have huniq : ∀ u ∈ b.tabsInWindow (affectedWindow closedTabId removeInfo (getSaved st)),
      u.index = t0.index → u = t0 :=
    fun u hu h => List.inj_on_of_nodup_map hnodup hu hmem0 h
  have hrep : findReplacement (liveTabs b closedTabId removeInfo (getSaved st)) (oldIndexOf e)
      = some t0 := by
    cases hf : (liveTabs b closedTabId removeInfo (getSaved st)).find?
        (fun t => t.index == some (oldIndexOf e)) with
    | some t1 =>
      have hp : t1.index = some (oldIndexOf e) := by simpa using List.find?_some hf
      have hmem1 : t1 ∈ b.tabsInWindow (affectedWindow closedTabId removeInfo (getSaved st)) :=
        (sortTabs_perm _).mem_iff.mp (List.mem_of_find?_eq_some hf)
      obtain ⟨k, hk, hkidx⟩ := index_of_contiguous _ n hperm t1 hmem1
      have hko : k = oldIndexOf e := by
        rw [hp] at hkidx
        exact (Option.some.inj hkidx).symm
      have hmin : min (oldIndexOf e) (n - 1) = oldIndexOf e := by
        apply Nat.min_eq_left
        omega
      have h10 : t1 = t0 := huniq t1 hmem1 (by rw [hp, hidx0, hmin])
      rw [findReplacement_of_find _ _ _ hf, h10]
    | none =>
      obtain ⟨t2, hpos, hrep2⟩ := findReplacement_of_not_find _ _ hne2 hf
      have hge : n ≤ oldIndexOf e := by
        by_contra hlt
        have hmin : min (oldIndexOf e) (n - 1) = oldIndexOf e := by
          apply Nat.min_eq_left
          omega
        have := List.find?_eq_none.mp hf t0 ((sortTabs_perm _).mem_iff.mpr hmem0)
        simp [hidx0, hmin] at this
      rw [hlen] at hpos
      have hget0b : (liveTabs b closedTabId removeInfo (getSaved st))[
          min (oldIndexOf e) (n - 1)]? = some t0 := hget0
      rw [hpos] at hget0b
      rw [hrep2, hget0b]
  refine ⟨t0, (b.getTab t0.id).getD t0, hmem0, hidx0, huniq, hrep, hget0, rfl, ?_⟩
  rw [getElem?_onRemoved b closedTabId removeInfo st i e hw hne hi]
  rw [stepEntry_of_replacement b _ closedTabId e t0 he hrep]

/-- Witness for `closure_successor_contiguous`: two tabs at indices 0 and 1, the entry
was last seen at index 5. -/
theorem closure_successor_contiguous_witness :
    ∃ t live,
      t ∈ fallbackBrowser.tabsInWindow (affectedWindow 1 sampleClose (getSaved fallbackStore)) ∧
      t.index = some (min (oldIndexOf (sampleEntry 1 5)) (2 - 1)) ∧
      (∀ u ∈ fallbackBrowser.tabsInWindow
          (affectedWindow 1 sampleClose (getSaved fallbackStore)),
        u.index = t.index → u = t) ∧
      findReplacement (liveTabs fallbackBrowser 1 sampleClose (getSaved fallbackStore))
        (oldIndexOf (sampleEntry 1 5)) = some t ∧
      (liveTabs fallbackBrowser 1 sampleClose (getSaved fallbackStore))[
        min (oldIndexOf (sampleEntry 1 5)) (2 - 1)]? = some t ∧
      live = (fallbackBrowser.getTab t.id).getD t ∧
      (getSaved (onRemoved fallbackBrowser 1 sampleClose fallbackStore))[0]? =
        some { tabId := live.id, windowId := live.windowId, url := live.url,
               title := live.title, favIconUrl := live.favIconUrl, index := live.index,
               savedAt := (sampleEntry 1 5).savedAt, autoRepointed := true } :=
  closure_successor_contiguous fallbackBrowser 1 sampleClose fallbackStore 0 (sampleEntry 1 5) 2
    rfl rfl rfl (by decide) (by decide)

theorem stepEntry_savedAt (b : Browser) (tabs : List Tab) (closedTabId : Int) (e : SavedEntry) :
    (stepEntry b tabs closedTabId e).savedAt = e.savedAt := by
  unfold stepEntry successorOf
  split
  · cases findReplacement tabs (oldIndexOf e) <;> simp [repoint]
  · rfl

theorem idxsFrom_eq_nil {α : Type} (p : α → Bool) (l : List α) (i : Nat)
    (h : ∀ e ∈ l, p e = false) : idxsFrom p i l = [] := by
  induction l generalizing i with
  | nil => rfl
  | cons e es ih =>
    have he := h e (List.mem_cons_self _ _)
    simp only [idxsFrom, he, Bool.false_eq_true, if_false]
    exact ih (i + 1) (fun x hx => h x (List.mem_cons_of_mem _ hx))

theorem onRemoved_of_unaffected (b : Browser) (closedTabId : Int) (removeInfo : RemoveInfo)
    (st : Storage) (h : ∀ e ∈ getSaved st, e.tabId ≠ some closedTabId) :
    onRemoved b closedTabId removeInfo st = st := by
  have hnil : affectedIdxs closedTabId (getSaved st) = [] := by
    unfold affectedIdxs
    rw [affectedFrom_eq_idxsFrom]
    apply idxsFrom_eq_nil
    intro e he
    simpa using h e he
  unfold onRemoved
  simp only [hnil]

theorem filter_sublist_reconcileSpec (b : Browser) (tabs : List Tab) (closedTabId : Int)
    (list : List SavedEntry) :
    List.Sublist (list.filter (fun e => e.tabId != some closedTabId))
      (reconcileSpec b tabs closedTabId list) := by
  unfold reconcileSpec
  induction list with
  | nil => exact List.Sublist.slnil
  | cons e es ih =>
    by_cases he : (e.tabId == some closedTabId) = true
    · have hb : (e.tabId != some closedTabId) = false := by simp [bne, he]
      simp only [List.filter_cons, hb, Bool.false_eq_true, if_false, List.filterMap_cons, he,
        if_true]
      cases successorOf b tabs e with
      | none => exact ih
      | some x => exact List.Sublist.cons x ih
    · have hb : (e.tabId != some closedTabId) = true := by simp [bne, he]
      simp only [List.filter_cons, hb, if_true, List.filterMap_cons, he, if_false,
        Bool.false_eq_true]
      exact List.Sublist.cons₂ e ih

/-- C4. Closure with no successor: when the window stays open and the queried live set
is empty, the list read back after the reconciliation is the input list without the
entries pointing at the closed tab, the others in their order; and when the live set is
not empty nothing is deleted: the list keeps its length and every position keeps an
entry with the same `savedAt`. -/
theorem closure_no_successor (b : Browser) (closedTabId : Int) (removeInfo : RemoveInfo)
    (st : Storage) (hw : removeInfo.isWindowClosing = false) :
    (b.tabsInWindow (affectedWindow closedTabId removeInfo (getSaved st)) = [] →
      getSaved (onRemoved b closedTabId removeInfo st) =
        (getSaved st).filter (fun e => e.tabId != some closedTabId)) ∧
    (b.tabsInWindow (affectedWindow closedTabId removeInfo (getSaved st)) ≠ [] →
      (getSaved (onRemoved b closedTabId removeInfo st)).length = (getSaved st).length ∧
      ∀ (i : Nat) (e : SavedEntry), (getSaved st)[i]? = some e →
        ∃ e2 : SavedEntry, (getSaved (onRemoved b closedTabId removeInfo st))[i]? = some e2 ∧
          e2.savedAt = e.savedAt) := by
  constructor
  · intro hempty
    rw [getSaved_onRemoved, hw]
    simp only [Bool.false_eq_true, if_false]
    unfold liveTabs
    rw [hempty]
    exact reconcileSpec_nil b closedTabId (getSaved st)
  · intro hne
    constructor
    · rw [getSaved_onRemoved, hw]
      simp only [Bool.false_eq_true, if_false]
      rw [reconcileSpec_eq_map _ _ _ _ (liveTabs_ne_nil b closedTabId removeInfo _ hne),
        List.length_map]
    · intro i e hi
      exact ⟨_, getElem?_onRemoved b closedTabId removeInfo st i e hw hne hi,
        stepEntry_savedAt _ _ _ _⟩

/-- Witness for `closure_no_successor`: both entries for tab 1 disappear when the window
has no tab left, the entry for tab 4 stays. -/
theorem closure_no_successor_witness :
    sampleClose.isWindowClosing = false ∧
    getSaved (onRemoved emptyBrowser 1 sampleClose mixedStore) = [sampleEntry 4 0] :=
  ⟨rfl, ((closure_no_successor emptyBrowser 1 sampleClose mixedStore rfl).1 rfl).trans
    (by decide)⟩

/-- C5. Window-closing shortcut: a tab-removed event with `isWindowClosing = true`
leaves as persisted list the input list filtered to the entries whose `tabId` differs
from the closed tab id, and the resulting store is the same for every browser state:
the live tabs play no part. -/
theorem window_closing_shortcut (b : Browser) (closedTabId : Int) (removeInfo : RemoveInfo)
    (st : Storage) (hw : removeInfo.isWindowClosing = true) :
    getSaved (onRemoved b closedTabId removeInfo st) =
      (getSaved st).filter (fun e => e.tabId != some closedTabId) ∧
    ∀ b2 : Browser, onRemoved b2 closedTabId removeInfo st = onRemoved b closedTabId removeInfo st := by
  constructor
  · rw [getSaved_onRemoved, hw]
    simp only [if_true]
  · intro b2
    unfold onRemoved
    simp only [hw, if_true]

/-- Witness for `window_closing_shortcut`: the window closes while four tabs are still
reported live; both entries for tab 1 are removed. -/
theorem window_closing_shortcut_witness :
    sampleWindowClose.isWindowClosing = true ∧
    (getSaved (onRemoved exactBrowser 1 sampleWindowClose mixedStore) =
      (getSaved mixedStore).filter (fun e => e.tabId != some 1) ∧
    ∀ b2 : Browser, onRemoved b2 1 sampleWindowClose mixedStore =
      onRemoved exactBrowser 1 sampleWindowClose mixedStore) :=
  ⟨rfl, window_closing_shortcut exactBrowser 1 sampleWindowClose mixedStore rfl⟩

/-- C6. Frame of the closure reconciliation: for every tab-removed event the entries
whose `tabId` differs from the closed tab id are found unchanged and in the same relative
order in the resulting list, and when no entry points at the closed tab the store is left
exactly as it was (no write). -/
theorem closure_frame (b : Browser) (closedTabId : Int) (removeInfo : RemoveInfo)
    (st : Storage) :
    List.Sublist ((getSaved st).filter (fun e => e.tabId != some closedTabId))
      (getSaved (onRemoved b closedTabId removeInfo st)) ∧
    ((∀ e ∈ getSaved st, e.tabId ≠ some closedTabId) →
      onRemoved b closedTabId removeInfo st = st) := by
  constructor
  · rw [getSaved_onRemoved]
    split
    · exact List.Sublist.refl _
    · exact filter_sublist_reconcileSpec _ _ _ _
  · exact onRemoved_of_unaffected b closedTabId removeInfo st

/-! ## Storage and core helpers -/

theorem setSavedIfChanged_of_same (next : List SavedEntry) (st : Storage)
    (h : stringify next = stringify (getSaved st)) : setSavedIfChanged next st = st := by
  unfold setSavedIfChanged
  simp [h]

theorem setSavedIfChanged_of_ne (next : List SavedEntry) (st : Storage)
    (h : stringify next ≠ stringify (getSaved st)) :
    setSavedIfChanged next st =
      { savedTabs := some (StoredValue.array next), writes := st.writes + 1 } := by
  unfold setSavedIfChanged
  have hb : (stringify (getSaved st) == stringify next) = false := by
    simp only [beq_eq_false_iff_ne, ne_eq]
    exact fun h2 => h h2.symm
  simp [hb]

theorem findIndex_spec {α : Type} (p : α → Bool) :
    ∀ l : List α,
      match findIndex p l with
      | none => ∀ e ∈ l, p e = false
      | some idx => ∃ old, l[idx]? = some old ∧ p old = true ∧
          ∀ (j : Nat) (x : α), j < idx → l[j]? = some x → p x = false := by
  intro l
  induction l with
  | nil => simp [findIndex]
  | cons a as ih =>
    by_cases ha : p a = true
    · simp [findIndex, ha]
    · have ha2 : p a = false := by simpa using ha
      cases hf : findIndex p as with
      | none =>
        rw [hf] at ih
        simp only [findIndex, ha2, Bool.false_eq_true, if_false, hf, Option.map_none']
        intro e he
        rcases List.mem_cons.mp he with h | h
        · rw [h]; exact ha2
        · exact ih e h
      | some k =>
        rw [hf] at ih
        obtain ⟨old, h1, h2, h3⟩ := ih
        simp only [findIndex, ha2, Bool.false_eq_true, if_false, hf, Option.map_some']
        refine ⟨old, by simpa using h1, h2, ?_⟩
        intro j x hj hx
        cases j with
        | zero =>
          simp at hx
          rw [← hx]; exact ha2
        | succ j2 =>
          simp at hx
          exact h3 j2 x (by omega) hx

/-- C7. Change-suppressing write: `setSavedIfChanged next` writes (one more
`storage.local.set`, the stored value becomes the array `next`) exactly when the
serialization of `next` differs from that of the list `getSaved` reads, and leaves the
store untouched otherwise; a write that is performed changes the serialization of the
saved list; and `updateEntry`, `removeByTabId`, `addCurrentTab` and the closure
reconciliation end in the store they started from or in the result of this write. -/
theorem change_suppressing_write (next : List SavedEntry) (st : Storage) (p : EntryPatch)
    (tabId : Option Int) (b : Browser) (closedTabId : Int) (removeInfo : RemoveInfo) :
    ((setSavedIfChanged next st).writes ≠ st.writes ↔
      stringify next ≠ stringify (getSaved st)) ∧
    (stringify next ≠ stringify (getSaved st) →
      setSavedIfChanged next st =
        { savedTabs := some (StoredValue.array next), writes := st.writes + 1 }) ∧
    (stringify next = stringify (getSaved st) → setSavedIfChanged next st = st) ∧
    ((setSavedIfChanged next st).writes ≠ st.writes →
      stringify (getSaved (setSavedIfChanged next st)) ≠ stringify (getSaved st)) ∧
    (updateEntry p st = st ∨ ∃ l, updateEntry p st = setSavedIfChanged l st) ∧
    (removeByTabId tabId st = st ∨ ∃ l, removeByTabId tabId st = setSavedIfChanged l st) ∧
    (addCurrentTab b st = st ∨ ∃ l, addCurrentTab b st = setSavedIfChanged l st) ∧
    (onRemoved b closedTabId removeInfo st = st ∨
      ∃ l, onRemoved b closedTabId removeInfo st = setSavedIfChanged l st) := by
  have hiff : (setSavedIfChanged next st).writes ≠ st.writes ↔
      stringify next ≠ stringify (getSaved st) := by
    by_cases h : stringify next = stringify (getSaved st)
    · rw [setSavedIfChanged_of_same next st h]
      simp [h]
    · rw [setSavedIfChanged_of_ne next st h]
      simp [h]
  refine ⟨hiff, setSavedIfChanged_of_ne next st, setSavedIfChanged_of_same next st, ?_, ?_, ?_,
    ?_, ?_⟩
  · intro hwr
    have hne := hiff.mp hwr
    rw [setSavedIfChanged_of_ne next st hne]
    exact hne
  · unfold updateEntry
    simp only []
    split
    · split
      · exact Or.inr ⟨_, rfl⟩
      · exact Or.inl rfl
    · exact Or.inl rfl
  · unfold removeByTabId
    simp only []
    split
    · exact Or.inr ⟨_, rfl⟩
    · exact Or.inl rfl
  · unfold addCurrentTab
    split
    · exact Or.inl rfl
    · simp only []
      split
      · exact Or.inl rfl
      · exact Or.inr ⟨_, rfl⟩
  · unfold onRemoved
    simp only []
    split
    · exact Or.inl rfl
    · split
      · exact Or.inr ⟨_, rfl⟩
      · exact Or.inr ⟨_, rfl⟩

/-- C8. `updateEntry` preserves untouched fields. The match key `t` is the caller's
`matchTabId`, or the caller's `tabId` when `matchTabId` is missing. When no entry has
`t` as `tabId` the store is left as it is; otherwise the list read back is the input list with
the first entry carrying that `tabId` replaced (same length, every other position
unchanged), and in the replaced entry each field named by the patch has the value of the
patch while each field not named keeps its value. The routing key `matchTabId` only
selects the entry: `tabId` changes only when the patch names `tabId`. -/
theorem updateEntry_preserves_untouched (p : EntryPatch) (st : Storage) (t : Option Int)
    (hroute : t = (match p.matchTabId with
                   | some m => some m
                   | none => (match p.tabId with
                              | some v => v
                              | none => none))) :
    ((∀ e ∈ getSaved st, e.tabId ≠ t) → updateEntry p st = st) ∧
    ((∃ e ∈ getSaved st, e.tabId = t) →
      ∃ (idx : Nat) (old new : SavedEntry),
        (getSaved st)[idx]? = some old ∧ old.tabId = t ∧
        (∀ (j : Nat) (x : SavedEntry), j < idx → (getSaved st)[j]? = some x →
          x.tabId ≠ t) ∧
        getSaved (updateEntry p st) = (getSaved st).set idx new ∧
        (getSaved (updateEntry p st)).length = (getSaved st).length ∧
        (∀ j : Nat, j ≠ idx → (getSaved (updateEntry p st))[j]? = (getSaved st)[j]?) ∧
        (getSaved (updateEntry p st))[idx]? = some new ∧
        new.tabId = (match p.tabId with | some v => v | none => old.tabId) ∧
        new.windowId = (match p.windowId with | some v => v | none => old.windowId) ∧
        new.url = (match p.url with | some v => v | none => old.url) ∧
        new.title = (match p.title with | some v => v | none => old.title) ∧
        new.favIconUrl = (match p.favIconUrl with | some v => v | none => old.favIconUrl) ∧
        new.index = (match p.index with | some v => v | none => old.index) ∧
        new.savedAt = (match p.savedAt with | some v => v | none => old.savedAt) ∧
        new.autoRepointed =
          (match p.autoRepointed with | some v => v | none => old.autoRepointed)) := by
  have hkey : matchKey p = t := by
    rw [hroute]
    unfold matchKey nullish
    cases p.matchTabId with
    | some m => rfl
    | none => cases p.tabId <;> rfl
  subst hkey
  have hspec := findIndex_spec (fun x : SavedEntry => x.tabId == matchKey p) (getSaved st)
  constructor
  · intro hnone
    cases hf : findIndex (fun x : SavedEntry => x.tabId == matchKey p) (getSaved st) with
    | none =>
      unfold updateEntry
      simp only [hf]
    | some idx =>
      rw [hf] at hspec
      obtain ⟨old, h1, h2, _⟩ := hspec
      exact absurd (by simpa using h2) (hnone old (List.getElem?_mem h1))
  · rintro ⟨e, hmem, hekey⟩
    cases hf : findIndex (fun x : SavedEntry => x.tabId == matchKey p) (getSaved st) with
    | none =>
      rw [hf] at hspec
      have := hspec e hmem
      simp [hekey] at this
    | some idx =>
      rw [hf] at hspec
      obtain ⟨old, h1, h2, h3⟩ := hspec
      have hres : getSaved (updateEntry p st) = (getSaved st).set idx (mergeEntry old p) := by
        unfold updateEntry
        simp only [hf, h1]
        exact getSaved_setSavedIfChanged _ _
      have hlt : idx < (getSaved st).length := by
        rcases List.getElem?_eq_some.mp h1 with ⟨h, _⟩
        exact h
      refine ⟨idx, old, mergeEntry old p, h1, by simpa using h2, ?_, hres, ?_, ?_, ?_, ?_⟩
      · intro j x hj hx
        have := h3 j x hj hx
        simpa using this
      · rw [hres, List.length_set]
      · intro j hj
        rw [hres, List.getElem?_set_ne (Ne.symm hj)]
      · rw [hres, List.getElem?_set_self hlt]
      · refine ⟨?_, ?_, ?_, ?_, ?_, ?_, ?_, ?_⟩
        · cases h : p.tabId <;> simp [mergeEntry, h]
        · cases h : p.windowId <;> simp [mergeEntry, h]
        · cases h : p.url <;> simp [mergeEntry, h]
        · cases h : p.title <;> simp [mergeEntry, h]
        · cases h : p.favIconUrl <;> simp [mergeEntry, h]
        · cases h : p.index <;> simp [mergeEntry, h]
        · cases h : p.savedAt <;> simp [mergeEntry, h]
        · cases h : p.autoRepointed <;> simp [mergeEntry, h]

/-- Witness for `updateEntry_preserves_untouched`, the spec example
`updateFields(1, title "X")`: the caller names `tabId: 1` and `title`; the list holds an
entry for tab 4 and an entry for tab 1; only the `title` of the entry for tab 1 changes. -/
theorem updateEntry_preserves_untouched_witness :
    (some 1 = (match titlePatch.matchTabId with
               | some m => some m
               | none => (match titlePatch.tabId with
                          | some v => v
                          | none => none))) ∧
    getSaved (updateEntry titlePatch (sampleStore [sampleEntry 4 0, sampleEntry 1 2])) =
      [sampleEntry 4 0,
       { tabId := some 1, windowId := some 7, url := some "https://saved.example/",
         title := some "X", favIconUrl := none, index := some 2, savedAt := 1000,
         autoRepointed := false }] := by
  refine ⟨rfl, ?_⟩
  obtain ⟨idx, old, new, hold, hkey, _, hres, _, _, _, h1, h2, h3, h4, h5, h6, h7, h8⟩ :=
    (updateEntry_preserves_untouched titlePatch
      (sampleStore [sampleEntry 4 0, sampleEntry 1 2]) (some 1) rfl).2
      ⟨sampleEntry 1 2, by decide, rfl⟩
  have hlist : getSaved (sampleStore [sampleEntry 4 0, sampleEntry 1 2]) =
      [sampleEntry 4 0, sampleEntry 1 2] := rfl
  rw [hlist] at hold hres
  rw [hres]
  match idx, hold with
  | 0, hold =>
    have h0 : old = sampleEntry 4 0 := (Option.some.inj hold).symm
    rw [h0] at hkey
    exact absurd hkey (by decide)
  | 1, hold =>
    have h0 : old = sampleEntry 1 2 := (Option.some.inj hold).symm
    subst h0
    obtain ⟨a1, a2, a3, a4, a5, a6, a7, a8⟩ := new
    simp only [] at h1 h2 h3 h4 h5 h6 h7 h8
    subst h1 h2 h3 h4 h5 h6 h7 h8
    rfl
  | n + 2, hold => exact absurd hold (by simp)

/-- The spec example of `updateFields(1, title)`: only `title` changes. -/
theorem updateEntry_title_example :
    getSaved (updateEntry titlePatch (sampleStore [sampleEntry 4 0, sampleEntry 1 2])) =
      [sampleEntry 4 0, { sampleEntry 1 2 with title := some "X" }] := by
  decide

theorem any_eq_true_of_mem (list : List SavedEntry) (t : Tab) :
    (list.any (fun x => x.tabId == t.id && x.windowId == t.windowId) = true) ↔
      ∃ e ∈ list, e.tabId = t.id ∧ e.windowId = t.windowId := by
  simp [List.any_eq_true]

theorem addCurrentTab_of_found (b : Browser) (st : Storage) (t : Tab)
    (hactive : b.activeTab = some t)
    (hany : (getSaved st).any (fun x => x.tabId == t.id && x.windowId == t.windowId) = true) :
    addCurrentTab b st = st := by
  unfold addCurrentTab
  simp only [hactive, hany, if_true]

/-- C9. Result of `addCurrentTab` for an active tab `t`: when some entry already has the
`tabId` and `windowId` of `t` the store is left unchanged; otherwise the list read back
is the new entry followed by the old list, the new entry carrying the `id`, `windowId`,
`url`, `title`, `favIconUrl` and `index` of `t` (`index` being `0` when `t` has none),
`savedAt` the current time and `autoRepointed` false. -/
theorem addCurrentTab_result (b : Browser) (st : Storage) (t : Tab)
    (hactive : b.activeTab = some t) :
    ((∃ e ∈ getSaved st, e.tabId = t.id ∧ e.windowId = t.windowId) →
      addCurrentTab b st = st) ∧
    ((¬ ∃ e ∈ getSaved st, e.tabId = t.id ∧ e.windowId = t.windowId) →
      getSaved (addCurrentTab b st) =
        { tabId := t.id, windowId := t.windowId, url := t.url, title := t.title,
          favIconUrl := t.favIconUrl, index := some (t.index.getD 0), savedAt := b.now,
          autoRepointed := false } :: getSaved st) := by
  constructor
  · intro hex
    have hany := (any_eq_true_of_mem (getSaved st) t).mpr hex
    unfold addCurrentTab
    simp only [hactive, hany, if_true]
  · intro hnex
    have hany : (getSaved st).any (fun x => x.tabId == t.id && x.windowId == t.windowId) = false := by
      cases h : (getSaved st).any (fun x => x.tabId == t.id && x.windowId == t.windowId) with
      | false => rfl
      | true => exact absurd ((any_eq_true_of_mem (getSaved st) t).mp h) hnex
    unfold addCurrentTab
    simp only [hactive, hany, Bool.false_eq_true, if_false, getSaved_setSavedIfChanged]
    congr 1
    cases hidx : t.index <;> simp [newEntry, nullish, hidx]

/-- Witness for `addCurrentTab_result`: tab 10 is active and the list holds entries for
tabs 4 and 1 only, so an entry for tab 10 is put in front. -/
theorem addCurrentTab_result_witness :
    exactBrowser.activeTab = some (sampleTab 10 0) ∧
    getSaved (addCurrentTab exactBrowser exactStore) =
      { tabId := some 10, windowId := some 7, url := some "https://example.org/",
        title := some "live", favIconUrl := none, index := some 0, savedAt := 2000,
        autoRepointed := false } :: getSaved exactStore :=
  ⟨rfl, (addCurrentTab_result exactBrowser exactStore (sampleTab 10 0) rfl).2 (by decide)⟩

/-- C10. Idempotent add: `addCurrentTab` run a second time for an active tab with the same
`id` and `windowId` (whatever its other properties and the clock are then) leaves the
store exactly as the first run left it; the list is no longer than after the first run. -/
theorem addCurrentTab_idempotent (b1 b2 : Browser) (st : Storage) (t1 t2 : Tab)
    (h1 : b1.activeTab = some t1) (h2 : b2.activeTab = some t2)
    (hid : t2.id = t1.id) (hwin : t2.windowId = t1.windowId) :
    addCurrentTab b2 (addCurrentTab b1 st) = addCurrentTab b1 st ∧
    (getSaved (addCurrentTab b2 (addCurrentTab b1 st))).length ≤
      (getSaved (addCurrentTab b1 st)).length := by
  have hfound : ∃ e ∈ getSaved (addCurrentTab b1 st),
      e.tabId = t2.id ∧ e.windowId = t2.windowId := by
    by_cases hex : ∃ e ∈ getSaved st, e.tabId = t1.id ∧ e.windowId = t1.windowId
    · have hany := (any_eq_true_of_mem (getSaved st) t1).mpr hex
      have hsame : addCurrentTab b1 st = st := by
        unfold addCurrentTab
        simp only [h1, hany, if_true]
      rw [hsame, hid, hwin]
      exact hex
    · have hany : (getSaved st).any
          (fun x => x.tabId == t1.id && x.windowId == t1.windowId) = false := by
        cases h : (getSaved st).any (fun x => x.tabId == t1.id && x.windowId == t1.windowId) with
        | false => rfl
        | true => exact absurd ((any_eq_true_of_mem (getSaved st) t1).mp h) hex
      have hlist : getSaved (addCurrentTab b1 st) = newEntry t1 b1.now :: getSaved st := by
        unfold addCurrentTab
        simp only [h1, hany, Bool.false_eq_true, if_false, getSaved_setSavedIfChanged]
      rw [hlist]
      exact ⟨newEntry t1 b1.now, List.mem_cons_self _ _, by simp [newEntry, hid],
        by simp [newEntry, hwin]⟩
  have hany2 := (any_eq_true_of_mem (getSaved (addCurrentTab b1 st)) t2).mpr hfound
  have heq : addCurrentTab b2 (addCurrentTab b1 st) = addCurrentTab b1 st :=
    addCurrentTab_of_found b2 (addCurrentTab b1 st) t2 h2 hany2
  exact ⟨heq, by rw [heq]⟩

/-- Witness for `addCurrentTab_idempotent`: tab 10 of window 7 saved twice, the second
time under another title and at a later time. -/
theorem addCurrentTab_idempotent_witness :
    exactBrowser.activeTab = some (sampleTab 10 0) ∧
    (addCurrentTab laterBrowser (addCurrentTab exactBrowser exactStore) =
      addCurrentTab exactBrowser exactStore ∧
    (getSaved (addCurrentTab laterBrowser (addCurrentTab exactBrowser exactStore))).length ≤
      (getSaved (addCurrentTab exactBrowser exactStore)).length) :=
  ⟨rfl, addCurrentTab_idempotent exactBrowser laterBrowser exactStore (sampleTab 10 0)
    { id := some 10, windowId := some 7, url := some "https://example.org/next",
      title := some "later", favIconUrl := none, index := some 3 } rfl rfl rfl rfl⟩

/-! ## Removal, hydration and the store read -/

/-- C11. `removeByTabId` removes all matches: the list read back afterwards is the input
list filtered to the entries whose `tabId` differs from the argument (same order, entries
unchanged), no entry with that `tabId` remains, and when no entry has that `tabId` the
store is left as it was. -/
theorem removeByTabId_removes_all (tabId : Option Int) (st : Storage) :
    getSaved (removeByTabId tabId st) = (getSaved st).filter (fun x => x.tabId != tabId) ∧
    (∀ e ∈ getSaved (removeByTabId tabId st), e.tabId ≠ tabId) ∧
    ((∀ e ∈ getSaved st, e.tabId ≠ tabId) → removeByTabId tabId st = st) := by
  have hres : getSaved (removeByTabId tabId st) =
      (getSaved st).filter (fun x => x.tabId != tabId) := by
    unfold removeByTabId
    simp only []
    by_cases hlen : ((getSaved st).filter (fun x => x.tabId != tabId)).length =
        (getSaved st).length
    · have hb : ((List.filter (fun x => x.tabId != tabId) (getSaved st)).length !=
          (getSaved st).length) = false := by simp [hlen]
      simp only [hb, Bool.false_eq_true, if_false]
      exact (List.Sublist.eq_of_length (List.filter_sublist _) hlen).symm
    · have hb : ((List.filter (fun x => x.tabId != tabId) (getSaved st)).length !=
          (getSaved st).length) = true := by simp [hlen]
      simp only [hb, if_true, getSaved_setSavedIfChanged]
  refine ⟨hres, ?_, ?_⟩
  · intro e he
    rw [hres] at he
    have := (List.mem_filter.mp he).2
    simpa using this
  · intro hnone
    have hself : (getSaved st).filter (fun x => x.tabId != tabId) = getSaved st := by
      apply List.filter_eq_self.mpr
      intro e he
      simpa using hnone e he
    unfold removeByTabId
    simp only [hself, bne_self_eq_false, Bool.false_eq_true, if_false]

/-- C12. Hydration is a read-only overlay: `GET_SAVED_HYDRATED` returns the store as it
was, and its response is a list of the length of the stored list whose entry at each
position keeps `tabId`, `windowId`, `savedAt` and `autoRepointed` of the stored entry;
when `tabs.get` rejects the stored entry is returned as is, and otherwise `title`, `url`,
`favIconUrl` and `index` are those of the tab where it has them and those of the stored
entry where it has not. -/
theorem hydration_read_only (b : Browser) (st : Storage) :
    (onMessage b Msg.getSavedHydrated st).2 = st ∧
    ∃ l : List SavedEntry,
      (onMessage b Msg.getSavedHydrated st).1 = Response.saved l ∧
      l.length = (getSaved st).length ∧
      ∀ (i : Nat) (e : SavedEntry), (getSaved st)[i]? = some e →
        ∃ h : SavedEntry, l[i]? = some h ∧
          h.tabId = e.tabId ∧ h.windowId = e.windowId ∧ h.savedAt = e.savedAt ∧
          h.autoRepointed = e.autoRepointed ∧
          (match b.getTab e.tabId with
           | none => h = e
           | some t =>
             h.title = (match t.title with | some v => some v | none => e.title) ∧
             h.url = (match t.url with | some v => some v | none => e.url) ∧
             h.favIconUrl =
               (match t.favIconUrl with | some v => some v | none => e.favIconUrl) ∧
             h.index = (match t.index with | some v => some v | none => e.index)) := by
  refine ⟨rfl, (getSaved st).map (hydrate b), rfl, List.length_map _ _, ?_⟩
  intro i e hi
  refine ⟨hydrate b e, by rw [List.getElem?_map, hi]; rfl, ?_⟩
  unfold hydrate
  cases hg : b.getTab e.tabId with
  | none => simp
  | some t =>
    refine ⟨rfl, rfl, rfl, rfl, ?_, ?_, ?_, ?_⟩
    · cases h : t.title <;> simp [nullish, h]
    · cases h : t.url <;> simp [nullish, h]
    · cases h : t.favIconUrl <;> simp [nullish, h]
    · cases h : t.index <;> simp [nullish, h]

/-- C15. The store read never fails and normalises bad state: `getSaved` returns the
stored array as it is, and the empty list when the key is absent or holds a value that
is not an array; `GET_SAVED` answers with exactly this list and leaves the store as it
was. -/
theorem getSaved_normalises (b : Browser) (st : Storage) :
    (∀ l : List SavedEntry, st.savedTabs = some (StoredValue.array l) → getSaved st = l) ∧
    (st.savedTabs = none → getSaved st = []) ∧
    (∀ text : String, st.savedTabs = some (StoredValue.nonArray text) → getSaved st = []) ∧
    onMessage b Msg.getSaved st = (Response.saved (getSaved st), st) := by
  refine ⟨?_, ?_, ?_, rfl⟩
  · intro l h
    simp [getSaved, h]
  · intro h
    simp [getSaved, h]
  · intro text h
    simp [getSaved, h]

/-! ## Clearing the flag, malformed state -/

theorem getSaved_updateEntry_of_findIndex (p : EntryPatch) (st : Storage) (idx : Nat)
    (old : SavedEntry)
    (hf : findIndex (fun x : SavedEntry => x.tabId == matchKey p) (getSaved st) = some idx)
    (hold : (getSaved st)[idx]? = some old) :
    getSaved (updateEntry p st) = (getSaved st).set idx (mergeEntry old p) := by
  unfold updateEntry
  simp only [hf, hold]
  exact getSaved_setSavedIfChanged _ _

theorem updateEntry_of_findIndex_none (p : EntryPatch) (st : Storage)
    (hf : findIndex (fun x : SavedEntry => x.tabId == matchKey p) (getSaved st) = none) :
    updateEntry p st = st := by
  unfold updateEntry
  simp only [hf]

/-- What `CLEAR_REPOINTED_FLAG` does in general: the first entry whose `tabId` is the one
of the message has `autoRepointed = false` afterwards. -/
theorem clearRepointedFlag_first_match (b : Browser) (tabId : Option Int) (st : Storage)
    (idx : Nat)
    (hf : findIndex (fun x : SavedEntry => x.tabId == tabId) (getSaved st) = some idx) :
    ∃ e : SavedEntry, (getSaved (onMessage b (Msg.clearRepointedFlag tabId) st).2)[idx]? = some e ∧
      e.autoRepointed = false := by
  have hkey : matchKey (clearFlagPatch tabId) = tabId := by
    cases tabId <;> rfl
  have hspec := findIndex_spec (fun x : SavedEntry => x.tabId == tabId) (getSaved st)
  rw [hf] at hspec
  obtain ⟨old, hold, _, _⟩ := hspec
  have hlt : idx < (getSaved st).length := (List.getElem?_eq_some.mp hold).1
  have hres := getSaved_updateEntry_of_findIndex (clearFlagPatch tabId) st idx old
    (by rw [hkey]; exact hf) hold
  refine ⟨mergeEntry old (clearFlagPatch tabId), ?_, rfl⟩
  show (getSaved (updateEntry (clearFlagPatch tabId) st))[idx]? = _
  rw [hres, List.getElem?_set_self hlt]

/-- C13, evaluated where it fails. Tab 1 is saved, then tab 5, then tab 1 is closed and
its entry is re-pointed to tab 5: the list holds two entries for tab 5, the second one
flagged. The command `CLEAR_REPOINTED_FLAG` for tab 5, sent when the user focuses that
second entry, leaves its flag `true`: only the first entry for tab 5 is updated. -/
theorem clearRepointedFlag_misses_duplicate :
    (getSaved duplicateStore).map (fun e => (e.tabId, e.autoRepointed)) =
      [(some 5, false), (some 5, true)] ∧
    (getSaved (onMessage firstBrowser (Msg.clearRepointedFlag (some 5)) duplicateStore).2).map
      (fun e => (e.tabId, e.autoRepointed)) = [(some 5, false), (some 5, true)] := by
  decide

/-- C14, as stated, fails for the empty list: written over an absent key or over a value
that is not an array, `[]` serializes like the list read back, so nothing is written and
the stored value is not an array afterwards. -/
theorem self_heal_fails_on_empty_list :
    (setSavedIfChanged [] absentStore).savedTabs = none ∧
    (setSavedIfChanged [] objectStore).savedTabs = some (StoredValue.nonArray "\x7b\x7d") ∧
    (setSavedIfChanged [] objectStore).savedTabs ≠ some (StoredValue.array []) := by
  decide

/-- C14, amended. Over a stored value that is absent or not an array, writing a list `L`
through `setSavedIfChanged` leaves the array `L` as stored value when `L` is not empty;
for the empty list the store is left as it was; in both cases the list read back is `L`. -/
theorem self_heal_on_nonempty_write (L : List SavedEntry) (st : Storage)
    (hmal : st.savedTabs = none ∨ ∃ text : String, st.savedTabs = some (StoredValue.nonArray text)) :
    (L ≠ [] → (setSavedIfChanged L st).savedTabs = some (StoredValue.array L)) ∧
    (L = [] → setSavedIfChanged L st = st) ∧
    getSaved (setSavedIfChanged L st) = L := by
  have hread : getSaved st = [] := by
    rcases hmal with h | ⟨text, h⟩ <;> simp [getSaved, h]
  refine ⟨?_, ?_, getSaved_setSavedIfChanged L st⟩
  · intro hL
    rw [setSavedIfChanged_eq, hread, if_neg (fun h => hL h.symm)]
  · intro hL
    rw [setSavedIfChanged_eq, hread, if_pos hL.symm]

/-- Witness for `self_heal_on_nonempty_write`: a one-entry list written over a stored
JSON object. -/
theorem self_heal_on_nonempty_write_witness :
    (objectStore.savedTabs = none ∨
      ∃ text : String, objectStore.savedTabs = some (StoredValue.nonArray text)) ∧
    (setSavedIfChanged [sampleEntry 1 0] objectStore).savedTabs =
      some (StoredValue.array [sampleEntry 1 0]) :=
  ⟨Or.inr ⟨"\x7b\x7d", rfl⟩,
    (self_heal_on_nonempty_write [sampleEntry 1 0] objectStore (Or.inr ⟨"\x7b\x7d", rfl⟩)).1
      (by decide)⟩

/-! ## Invariants of the steps -/

theorem mergeEntry_savedAt (old : SavedEntry) (p : EntryPatch) (hp : p.savedAt = none) :
    (mergeEntry old p).savedAt = old.savedAt := by
  simp [mergeEntry, hp]

/-- `updateEntry` with a patch that does not name `savedAt` keeps every `savedAt`. -/
theorem updateEntry_savedAt (p : EntryPatch) (st : Storage) (hp : p.savedAt = none) :
    (getSaved (updateEntry p st)).map (fun e => e.savedAt) =
      (getSaved st).map (fun e => e.savedAt) := by
  cases hf : findIndex (fun x : SavedEntry => x.tabId == matchKey p) (getSaved st) with
  | none => rw [updateEntry_of_findIndex_none p st hf]
  | some idx =>
    have hspec := findIndex_spec (fun x : SavedEntry => x.tabId == matchKey p) (getSaved st)
    rw [hf] at hspec
    obtain ⟨old, hold, _, _⟩ := hspec
    rw [getSaved_updateEntry_of_findIndex p st idx old hf hold, List.map_set,
      mergeEntry_savedAt old p hp]
    apply List.ext_getElem?
    intro j
    by_cases hj : idx = j
    · subst hj
      have hlt : idx < ((getSaved st).map (fun e => e.savedAt)).length := by
        rw [List.length_map]
        exact (List.getElem?_eq_some.mp hold).1
      rw [List.getElem?_set_self hlt, List.getElem?_map, hold]
      rfl
    · rw [List.getElem?_set_ne hj]

theorem reconcileSpec_savedAt_sublist (b : Browser) (tabs : List Tab) (closedTabId : Int)
    (list : List SavedEntry) :
    List.Sublist ((reconcileSpec b tabs closedTabId list).map (fun e => e.savedAt))
      (list.map (fun e => e.savedAt)) := by
  unfold reconcileSpec
  induction list with
  | nil => exact List.Sublist.slnil
  | cons e es ih =>
    by_cases he : (e.tabId == some closedTabId) = true
    · cases hs : findReplacement tabs (oldIndexOf e) with
      | none =>
        have hs2 : successorOf b tabs e = none := by simp [successorOf, hs]
        simp only [List.filterMap_cons, he, if_true, hs2, List.map_cons]
        exact List.Sublist.cons _ ih
      | some r =>
        have hs2 : successorOf b tabs e = some (repoint e (liveOf b r)) := by
          simp [successorOf, hs]
        simp only [List.filterMap_cons, he, if_true, hs2, List.map_cons]
        exact List.Sublist.cons₂ _ ih
    · simp only [List.filterMap_cons, he, if_false, List.map_cons, Bool.false_eq_true]
      exact List.Sublist.cons₂ _ ih

theorem onRemoved_savedAt_sublist (b : Browser) (closedTabId : Int) (removeInfo : RemoveInfo)
    (st : Storage) :
    List.Sublist ((getSaved (onRemoved b closedTabId removeInfo st)).map (fun e => e.savedAt))
      ((getSaved st).map (fun e => e.savedAt)) := by
  rw [getSaved_onRemoved]
  split
  · exact (List.filter_sublist _).map _
  · exact reconcileSpec_savedAt_sublist _ _ _ _

/-- C16. `savedAt` is immutable: for every step of the system (tab updated, tab moved,
tab removed, any message) the sequence of `savedAt` values of the list read back after
the step is a subsequence of the sequence before it, or, for `ADD_CURRENT_TAB` only, the
sequence before it with the current time put in front. -/
theorem savedAt_immutable (b : Browser) (ev : Event) (st : Storage) :
    List.Sublist ((getSaved (step b ev st)).map (fun e => e.savedAt))
      ((getSaved st).map (fun e => e.savedAt)) ∨
    (ev = Event.message Msg.addCurrentTab ∧
      (getSaved (step b ev st)).map (fun e => e.savedAt) =
        b.now :: (getSaved st).map (fun e => e.savedAt)) := by
  cases ev with
  | tabUpdated tabId changeInfo tab =>
    left
    show List.Sublist ((getSaved (onUpdated tabId changeInfo tab st)).map _) _
    unfold onUpdated
    split
    · exact List.Sublist.refl _
    · rw [updateEntry_savedAt _ st rfl]
  | tabMoved tabId toIndex =>
    left
    show List.Sublist ((getSaved (onMoved tabId toIndex st)).map _) _
    unfold onMoved
    rw [updateEntry_savedAt _ st rfl]
  | tabRemoved closedTabId removeInfo =>
    left
    exact onRemoved_savedAt_sublist b closedTabId removeInfo st
  | message msg =>
    cases msg with
    | addCurrentTab =>
      show List.Sublist ((getSaved (addCurrentTab b st)).map _) _ ∨ _
      cases hact : b.activeTab with
      | none =>
        left
        have : addCurrentTab b st = st := by
          unfold addCurrentTab
          simp only [hact]
        rw [this]
      | some t =>
        by_cases hany : (getSaved st).any
            (fun x => x.tabId == t.id && x.windowId == t.windowId) = true
        · left
          rw [addCurrentTab_of_found b st t hact hany]
        · right
          refine ⟨rfl, ?_⟩
          show (getSaved (addCurrentTab b st)).map _ = _
          have hlist : getSaved (addCurrentTab b st) = newEntry t b.now :: getSaved st := by
            unfold addCurrentTab
            simp only [hact, hany, if_false, Bool.false_eq_true, getSaved_setSavedIfChanged]
          rw [hlist]
          rfl
    | getSaved => left; exact List.Sublist.refl _
    | getSavedHydrated => left; exact List.Sublist.refl _
    | focusTab tabId windowId => left; exact List.Sublist.refl _
    | removeSaved tabId =>
      left
      show List.Sublist ((getSaved (removeByTabId tabId st)).map _) _
      have hres : getSaved (removeByTabId tabId st) =
          (getSaved st).filter (fun x => x.tabId != tabId) := by
        unfold removeByTabId
        simp only []
        split
        · exact getSaved_setSavedIfChanged _ _
        · rename_i hlen
          have hlen2 : ((getSaved st).filter (fun x => x.tabId != tabId)).length =
              (getSaved st).length := by simpa using hlen
          exact (List.Sublist.eq_of_length (List.filter_sublist _) hlen2).symm
      rw [hres]
      exact (List.filter_sublist _).map _
    | clearRepointedFlag tabId =>
      left
      show List.Sublist ((getSaved (updateEntry (clearFlagPatch tabId) st)).map _) _
      rw [updateEntry_savedAt _ st rfl]
    | other => left; exact List.Sublist.refl _

theorem findReplacement_mem (tabs : List Tab) (k : Nat) (r : Tab)
    (h : findReplacement tabs k = some r) : r ∈ tabs := by
  unfold findReplacement at h
  cases hf : tabs.find? (fun t => t.index == some k) with
  | some t =>
    rw [hf] at h
    have : t = r := Option.some.inj h
    rw [← this]
    exact List.mem_of_find?_eq_some hf
  | none =>
    rw [hf] at h
    simp only [] at h
    split at h
    · exact List.getElem?_mem h
    · exact absurd h (by simp)

theorem liveOf_id (b : Browser) (r : Tab)
    (hget : ∀ (id : Option Int) (t : Tab), b.getTab id = some t → t.id = id) :
    (liveOf b r).id = r.id := by
  unfold liveOf
  cases hg : b.getTab r.id with
  | none => rfl
  | some t => exact hget r.id t hg

/-- C18. No dangling reference after a close: when no tab of the queried live set has
the closed tab id and every `tabs.get` that resolves returns a tab with the id asked
for, the list read back after the `onRemoved` listener (window closing or not) has no
entry whose `tabId` is the closed tab id. -/
theorem no_dangling_reference (b : Browser) (closedTabId : Int) (removeInfo : RemoveInfo)
    (st : Storage)
    (hlive : ∀ t ∈ b.tabsInWindow (affectedWindow closedTabId removeInfo (getSaved st)),
      t.id ≠ some closedTabId)
    (hget : ∀ (id : Option Int) (t : Tab), b.getTab id = some t → t.id = id) :
    ∀ e ∈ getSaved (onRemoved b closedTabId removeInfo st), e.tabId ≠ some closedTabId := by
  intro e he
  rw [getSaved_onRemoved] at he
  split at he
  · have := (List.mem_filter.mp he).2
    simpa using this
  · unfold reconcileSpec at he
    obtain ⟨a, _, hfa⟩ := List.mem_filterMap.mp he
    by_cases hta : (a.tabId == some closedTabId) = true
    · simp only [hta, if_true] at hfa
      unfold successorOf at hfa
      cases hr : findReplacement (liveTabs b closedTabId removeInfo (getSaved st))
          (oldIndexOf a) with
      | none =>
        rw [hr] at hfa
        exact absurd hfa (by simp)
      | some r =>
        rw [hr] at hfa
        have heq : repoint a (liveOf b r) = e := by simpa using hfa
        have hmem : r ∈ b.tabsInWindow (affectedWindow closedTabId removeInfo (getSaved st)) :=
          (sortTabs_perm _).mem_iff.mp (findReplacement_mem _ _ _ hr)
        have hid : e.tabId = r.id := by
          rw [← heq]
          exact liveOf_id b r hget
        rw [hid]
        exact hlive r hmem
    · simp only [hta, if_false, Bool.false_eq_true] at hfa
      have heq : a = e := Option.some.inj hfa
      rw [← heq]
      simpa using hta

/-- Witness for `no_dangling_reference`: tab 1 is closed, four other tabs are live and
`tabs.get` finds each of them by its id. -/
theorem no_dangling_reference_witness :
    (∀ t ∈ exactBrowser.tabsInWindow (affectedWindow 1 sampleClose (getSaved exactStore)),
      t.id ≠ some 1) ∧
    (∀ e ∈ getSaved (onRemoved exactBrowser 1 sampleClose exactStore), e.tabId ≠ some 1) :=
  ⟨by decide,
    no_dangling_reference exactBrowser 1 sampleClose exactStore (by decide)
      (fun id t h => by
        have hp := List.find?_some h
        simpa using hp)⟩

/-- C19. Uniqueness of `(tabId, windowId)` is not preserved by the closure
reconciliation. Tab 5 is saved, then tab 1, starting from an empty store: the pairs of the
list are distinct. Tab 1 is closed, its window stays open with tab 5 in it: the entry of
tab 1 is re-pointed to tab 5, which the other entry already references, and the list read
back holds the pair of tab 5 twice. -/
theorem dedup_not_preserved_by_closure :
    ∃ (b : Browser) (closedTabId : Int) (removeInfo : RemoveInfo) (st : Storage),
      st = addCurrentTab secondBrowser (addCurrentTab firstBrowser absentStore) ∧
      (tabPairs (getSaved st)).Nodup ∧
      removeInfo.isWindowClosing = false ∧
      (∀ t ∈ b.tabsInWindow (affectedWindow closedTabId removeInfo (getSaved st)),
        t.id ≠ some closedTabId) ∧
      tabPairs (getSaved (onRemoved b closedTabId removeInfo st)) =
        [(some 5, some 7), (some 5, some 7)] ∧
      ¬ (tabPairs (getSaved (onRemoved b closedTabId removeInfo st))).Nodup :=
  ⟨firstBrowser, 1, sampleClose, twoSavedStore, rfl, by decide, rfl, by decide, by decide,
    by decide⟩

/-! ## The message listener with its failures -/

theorem getSaved_toRaw (api : ApiStatus) (st : Storage) (hget : api.storageGet = true) :
    Raw.getSaved api (toRaw st) = Outcome.resolved ((getSaved st).map some) := by
  unfold Raw.getSaved toRaw getSaved
  rw [if_pos hget]
  cases st.savedTabs with
  | none => rfl
  | some v => cases v <;> rfl

theorem stringify_map_some (l : List SavedEntry) :
    Raw.stringify (l.map some) = (stringify l).map some := by
  unfold Raw.stringify stringify
  simp [List.map_map, Function.comp_def]

theorem stringify_beq_map_some (l1 l2 : List SavedEntry) :
    (Raw.stringify (l1.map some) == Raw.stringify (l2.map some)) =
      (stringify l1 == stringify l2) := by
  rw [stringify_map_some, stringify_map_some]
  by_cases h : stringify l1 = stringify l2
  · simp [h]
  · have h2 : (stringify l1).map some ≠ (stringify l2).map some := by
      intro hm
      exact h (List.map_injective_iff.mpr (Option.some_injective _) hm)
    simp [h, h2]

theorem setSavedIfChanged_toRaw (api : ApiStatus) (next : List SavedEntry) (st : Storage)
    (hget : api.storageGet = true) (hset : api.storageSet = true) :
    Raw.setSavedIfChanged api (next.map some) (toRaw st) =
      Outcome.resolved (toRaw (setSavedIfChanged next st)) := by
  unfold Raw.setSavedIfChanged setSavedIfChanged
  rw [getSaved_toRaw api st hget]
  simp only [stringify_beq_map_some]
  cases hb : (stringify (getSaved st) == stringify next) with
  | true => simp
  | false => simp [hset, toRaw]

theorem findIndex_map_some (key : Option Int) (l : List SavedEntry) :
    Raw.findIndex key (l.map some) =
      Outcome.resolved (findIndex (fun x : SavedEntry => x.tabId == key) l) := by
  induction l with
  | nil => rfl
  | cons e es ih =>
    by_cases he : (e.tabId == key) = true
    · simp [Raw.findIndex, findIndex, he]
    · simp only [List.map_cons, Raw.findIndex, findIndex, he, if_false, ih,
        Bool.false_eq_true]

theorem filterOut_map_some (tabId : Option Int) (l : List SavedEntry) :
    Raw.filterOut tabId (l.map some) =
      Outcome.resolved ((l.filter (fun x => x.tabId != tabId)).map some) := by
  induction l with
  | nil => rfl
  | cons e es ih =>
    simp only [List.map_cons, Raw.filterOut, ih, List.filter_cons]
    by_cases he : (e.tabId != tabId) = true
    · simp [he]
    · simp [he]

theorem anyMatch_map_some (t : Tab) (l : List SavedEntry) :
    Raw.anyMatch t (l.map some) =
      Outcome.resolved (l.any (fun x => x.tabId == t.id && x.windowId == t.windowId)) := by
  induction l with
  | nil => rfl
  | cons e es ih =>
    by_cases he : (e.tabId == t.id && e.windowId == t.windowId) = true
    · simp only [List.map_cons, Raw.anyMatch, he, if_true, List.any_cons, Bool.true_or]
    · have he2 : (e.tabId == t.id && e.windowId == t.windowId) = false := by simpa using he
      simp only [List.map_cons, Raw.anyMatch, he2, Bool.false_eq_true, if_false, ih,
        List.any_cons, Bool.false_or]

theorem updateEntry_toRaw (api : ApiStatus) (p : EntryPatch) (st : Storage)
    (hget : api.storageGet = true) (hset : api.storageSet = true) :
    Raw.updateEntry api p (toRaw st) = Outcome.resolved (toRaw (updateEntry p st)) := by
  unfold Raw.updateEntry updateEntry
  rw [getSaved_toRaw api st hget]
  simp only [findIndex_map_some]
  cases hf : findIndex (fun x : SavedEntry => x.tabId == matchKey p) (getSaved st) with
  | none => rfl
  | some idx =>
    simp only [List.getElem?_map]
    cases hold : (getSaved st)[idx]? with
    | none => rfl
    | some old =>
      simp only [Option.map_some']
      rw [← List.map_set, setSavedIfChanged_toRaw api _ st hget hset]

theorem removeByTabId_toRaw (api : ApiStatus) (tabId : Option Int) (st : Storage)
    (hget : api.storageGet = true) (hset : api.storageSet = true) :
    Raw.removeByTabId api tabId (toRaw st) =
      Outcome.resolved (toRaw (removeByTabId tabId st)) := by
  unfold Raw.removeByTabId removeByTabId
  rw [getSaved_toRaw api st hget]
  simp only [filterOut_map_some, List.length_map]
  split
  · exact setSavedIfChanged_toRaw api _ st hget hset
  · rfl

theorem addCurrentTab_toRaw (api : ApiStatus) (b : Browser) (st : Storage)
    (hget : api.storageGet = true) (hset : api.storageSet = true)
    (hquery : api.tabsQuery = true) :
    Raw.addCurrentTab api b (toRaw st) = Outcome.resolved (toRaw (addCurrentTab b st)) := by
  unfold Raw.addCurrentTab addCurrentTab
  rw [if_pos hquery]
  cases b.activeTab with
  | none => rfl
  | some t =>
    simp only []
    rw [getSaved_toRaw api st hget]
    simp only [anyMatch_map_some]
    cases hany : (getSaved st).any (fun x => x.tabId == t.id && x.windowId == t.windowId) with
    | true => simp
    | false =>
      simp only [Bool.false_eq_true, if_false]
      have := setSavedIfChanged_toRaw api (newEntry t b.now :: getSaved st) st hget hset
      simpa using this

theorem hydrate_map_some (b : Browser) (l : List SavedEntry) :
    (l.map some).map (Raw.hydrate b) = (l.map (hydrate b)).map some := by
  simp [List.map_map, Function.comp_def, Raw.hydrate]

/-- On a stored array of entry objects, while every awaited call resolves, the listener
with its failures resolves, to the response and the storage of `onMessage`. -/
theorem onMessage_toRaw (api : ApiStatus) (b : Browser) (msg : Msg) (st : Storage)
    (hget : api.storageGet = true) (hset : api.storageSet = true)
    (hquery : api.tabsQuery = true) :
    Raw.onMessage api b msg (toRaw st) =
      Outcome.resolved (toRawResponse (onMessage b msg st).1, toRaw (onMessage b msg st).2) := by
  cases msg with
  | addCurrentTab =>
    simp only [Raw.onMessage, onMessage, addCurrentTab_toRaw api b st hget hset hquery]
    rfl
  | getSaved =>
    simp only [Raw.onMessage, onMessage, getSaved_toRaw api st hget]
    rfl
  | getSavedHydrated =>
    simp only [Raw.onMessage, onMessage, getSaved_toRaw api st hget, hydrate_map_some]
    rfl
  | focusTab tabId windowId => rfl
  | removeSaved tabId =>
    simp only [Raw.onMessage, onMessage, removeByTabId_toRaw api tabId st hget hset]
    rfl
  | clearRepointedFlag tabId =>
    simp only [Raw.onMessage, onMessage, updateEntry_toRaw api _ st hget hset]
    rfl
  | other => rfl

theorem map_some_filterMap_id (items : List (Option SavedEntry))
    (h : ∀ x ∈ items, x ≠ none) : (items.filterMap id).map some = items := by
  induction items with
  | nil => rfl
  | cons x xs ih =>
    have hx := h x (List.mem_cons_self _ _)
    have ih2 := ih (fun y hy => h y (List.mem_cons_of_mem _ hy))
    cases x with
    | none => exact absurd rfl hx
    | some e => simp [ih2]

/-- A stored array without `null` is a stored array of entry objects. -/
theorem exists_toRaw (raw : RawStorage) (hwf : entriesOnly raw = true) :
    ∃ st : Storage, toRaw st = raw := by
  obtain ⟨saved, writes⟩ := raw
  cases saved with
  | none => exact ⟨{ savedTabs := none, writes := writes }, rfl⟩
  | some v =>
    cases v with
    | nonArray text =>
      exact ⟨{ savedTabs := some (StoredValue.nonArray text), writes := writes }, rfl⟩
    | array items =>
      refine ⟨{ savedTabs := some (StoredValue.array (items.filterMap id)), writes := writes }, ?_⟩
      have hall : ∀ x ∈ items, x ≠ none := by
        intro x hx hnone
        have h := List.all_eq_true.mp hwf x hx
        rw [hnone] at h
        exact absurd h (by decide)
      simp only [toRaw]
      rw [map_some_filterMap_id items hall]

theorem toRaw_injective (a c : Storage) (h : toRaw a = toRaw c) : a = c := by
  obtain ⟨sa, wa⟩ := a
  obtain ⟨sc, wc⟩ := c
  simp only [toRaw, RawStorage.mk.injEq] at h
  obtain ⟨hs, hw⟩ := h
  subst hw
  congr 1
  cases sa with
  | none =>
    cases sc with
    | none => rfl
    | some v => cases v <;> simp at hs
  | some u =>
    cases sc with
    | none => cases u <;> simp at hs
    | some v =>
      cases u with
      | array l1 =>
        cases v with
        | array l2 =>
          simp only [Option.some.injEq, RawStoredValue.array.injEq] at hs
          rw [List.map_injective_iff.mpr (Option.some_injective _) hs]
        | nonArray t2 => simp at hs
      | nonArray t1 =>
        cases v with
        | array l2 => simp at hs
        | nonArray t2 =>
          simp only [Option.some.injEq, RawStoredValue.nonArray.injEq] at hs
          rw [hs]

/-- `FOCUS_TAB` is acknowledged whatever the store holds and whichever calls reject:
`focusSavedTab` catches what `windows.update` and `tabs.update` throw. -/
theorem focusTab_always_acknowledged (api : ApiStatus) (b : Browser) (st : RawStorage)
    (tabId windowId : Option Int) :
    Raw.onMessage api b (Msg.focusTab tabId windowId) st =
      Outcome.resolved (RawResponse.ok, st) := rfl

/-- C17, as stated, fails: the listener awaits `removeByTabId`, `addCurrentTab` and
`getSaved` outside any `try`. With the stored array `[null]`, `REMOVE_SAVED` reads
`x.tabId` on `null` and the sender gets a rejection instead of the acknowledgment; so
does `ADD_CURRENT_TAB` when `tabs.query` rejects, and `GET_SAVED` when
`storage.local.get` rejects. -/
theorem dispatcher_rejects_on_failure :
    Raw.onMessage allResolve exactBrowser (Msg.removeSaved (some 1)) nullStore =
      Outcome.rejected JsError.typeError ∧
    Raw.onMessage queryRejects exactBrowser Msg.addCurrentTab (toRaw exactStore) =
      Outcome.rejected JsError.rejected ∧
    Raw.onMessage storageRejects exactBrowser Msg.getSaved (toRaw exactStore) =
      Outcome.rejected JsError.rejected := by
  decide

/-- C17, amended. When the stored value is absent, not an array, or an array of entry
objects, and the awaited calls `storage.local.get`, `storage.local.set` and `tabs.query`
resolve, the listener resolves for each of the six commands, in every browser state:
`ADD_CURRENT_TAB`, `FOCUS_TAB`, `REMOVE_SAVED` and `CLEAR_REPOINTED_FLAG` to the
acknowledgment (whether or not the tab, window or entry exists), with the storage the
handler leaves, `GET_SAVED` and `GET_SAVED_HYDRATED` to a list, with the storage as it
was. -/
theorem dispatcher_responses_when_calls_resolve (api : ApiStatus) (b : Browser)
    (st : RawStorage)
    (hget : api.storageGet = true) (hset : api.storageSet = true)
    (hquery : api.tabsQuery = true) (hwf : entriesOnly st = true) :
    ∃ st0 : Storage, toRaw st0 = st ∧
      Raw.onMessage api b Msg.addCurrentTab st =
        Outcome.resolved (RawResponse.ok, toRaw (addCurrentTab b st0)) ∧
      (∀ tabId windowId : Option Int,
        Raw.onMessage api b (Msg.focusTab tabId windowId) st =
          Outcome.resolved (RawResponse.ok, st)) ∧
      (∀ tabId : Option Int,
        Raw.onMessage api b (Msg.removeSaved tabId) st =
          Outcome.resolved (RawResponse.ok, toRaw (removeByTabId tabId st0))) ∧
      (∀ tabId : Option Int,
        Raw.onMessage api b (Msg.clearRepointedFlag tabId) st =
          Outcome.resolved (RawResponse.ok, toRaw (updateEntry (clearFlagPatch tabId) st0))) ∧
      Raw.onMessage api b Msg.getSaved st =
        Outcome.resolved (RawResponse.saved ((getSaved st0).map some), st) ∧
      Raw.onMessage api b Msg.getSavedHydrated st =
        Outcome.resolved
          (RawResponse.saved (((getSaved st0).map (hydrate b)).map some), st) := by
  obtain ⟨st0, hst0⟩ := exists_toRaw st hwf
  subst hst0
  refine ⟨st0, rfl, ?_, ?_, ?_, ?_, ?_, ?_⟩
  · rw [onMessage_toRaw api b _ st0 hget hset hquery]; rfl
  · intro tabId windowId; rfl
  · intro tabId
    rw [onMessage_toRaw api b _ st0 hget hset hquery]; rfl
  · intro tabId
    rw [onMessage_toRaw api b _ st0 hget hset hquery]; rfl
  · rw [onMessage_toRaw api b _ st0 hget hset hquery]; rfl
  · rw [onMessage_toRaw api b _ st0 hget hset hquery]; rfl

/-- Witness for `dispatcher_responses_when_calls_resolve`: every call resolves, the list
holds entries for tabs 4 and 1; `REMOVE_SAVED` for tab 1 is acknowledged and leaves the
entry of tab 4, `REMOVE_SAVED` for tab 8, which no entry references, is acknowledged and
leaves the store as it was. -/
theorem dispatcher_responses_when_calls_resolve_witness :
    entriesOnly (toRaw exactStore) = true ∧
    Raw.onMessage allResolve exactBrowser (Msg.removeSaved (some 1)) (toRaw exactStore) =
      Outcome.resolved (RawResponse.ok,
        { savedTabs := some (RawStoredValue.array [some (sampleEntry 4 0)]), writes := 1 }) ∧
    Raw.onMessage allResolve exactBrowser (Msg.removeSaved (some 8)) (toRaw exactStore) =
      Outcome.resolved (RawResponse.ok, toRaw exactStore) := by
  obtain ⟨st0, hst0, _, _, hrem, _, _, _⟩ :=
    dispatcher_responses_when_calls_resolve allResolve exactBrowser (toRaw exactStore)
      rfl rfl rfl rfl
  have h0 : st0 = exactStore := toRaw_injective st0 exactStore hst0
  subst h0
  exact ⟨rfl, hrem (some 1), hrem (some 8)⟩

end TabSaver
